import Mathlib

/-!
Verification of the time-series bucketing and aggregation engine of the
vnstat-dashboard repository.

The embedding models the JavaScript sources:
  * frontend/src/utils/dataAggregation.js  (standardizeTimestamp,
    getTimeBucketFunction, getTargetDataPoints, getTimeRangeCutoff,
    aggregateDataByTime, aggregateCombinedServerData)
  * the api service's normalizeTimestamp
  * the realtime chart's aggregateRealtimeData

Modelling conventions:
  * A JavaScript Date is its time value in milliseconds; an Invalid Date
    (time value NaN) is modelled as Option.none, so JDate := Option Int.
    The Euclidean / and % on Int with positive divisors coincide with the
    floor-based calendar arithmetic JavaScript performs.
  * JavaScript numbers are modelled as exact rationals; the IEEE-754 error
    of float arithmetic is outside the model.
  * The external date-fns library functions parseISO (ISO-8601 parsing) and
    utcToZonedTime, and the Date constructor's string parsing, are
    collaborator code absent from the repository; the embedding abstracts
    them as the fields of a TzEnv parameter: parseIso and dateCtor return
    none exactly when the library yields an Invalid Date, and tzShift is
    the instant adjustment performed by utcToZonedTime on a valid date
    (on an invalid date utcToZonedTime raises, the catch block in
    normalizeTimestamp then returns a plain new Date(timestamp), which the
    embedding reproduces).  All theorems quantify over the TzEnv.
  * Calendar getters (getSeconds, getMinutes, getHours, startOfHour,
    startOfDay) are read on the already-shifted timeline, with the browser
    clock modelled as UTC.
  * Array.prototype.sort with the comparator (a, b) => dateA - dateB is a
    stable sort in every modern engine; a NaN comparator value (Invalid
    Date involved) keeps the compared pair in place.  The embedding uses a
    stable insertion sort with a Boolean "comparator is not positive"
    relation, which yields the unique stable result for consistent
    comparators and one legitimate engine behaviour otherwise.
  * The timestamp_formatted field of an output record is produced by the
    date-fns format function applied to the bucket timestamp, and format
    throws a RangeError on an Invalid Date.  The embedding keeps this
    control-flow effect: aggregateDataByTime and aggregateCombinedServerData
    return an Except value that is an error exactly when the program would
    throw while building a point for an Invalid-Date bucket (the map over
    the buckets runs before the sort, the slice and — in the combined
    aggregator — before the server_count filter).  The rendered display
    string itself is not retained in the records.
  * Implicit wall-clock reads (new Date() inside getTimeRangeCutoff, the
    normalized now inside aggregateRealtimeData) are passed as an explicit
    now parameter.
-/

namespace VnstatAgg

/-- A JavaScript Date value: the instant in milliseconds since the epoch,
or none for an Invalid Date (NaN time value). -/
abbrev JDate := Option ℤ

/-- Decidable equality of Except results, to evaluate concrete aggregator
runs. -/
instance {ε α : Type} [DecidableEq ε] [DecidableEq α] :
    DecidableEq (Except ε α) := fun a b =>
  match a, b with
  | Except.error x, Except.error y =>
    if h : x = y then Decidable.isTrue (by rw [h])
    else Decidable.isFalse (fun hc => h (by cases hc; rfl))
  | Except.error _, Except.ok _ =>
    Decidable.isFalse (fun hc => Except.noConfusion hc)
  | Except.ok _, Except.error _ =>
    Decidable.isFalse (fun hc => Except.noConfusion hc)
  | Except.ok x, Except.ok y =>
    if h : x = y then Decidable.isTrue (by rw [h])
    else Decidable.isFalse (fun hc => h (by cases hc; rfl))

/-- A JavaScript value sitting in the rx_rate / tx_rate field of a raw
sample record, as delivered by JSON: a (finite) number, NaN, null, a
missing field (undefined), a string, or a boolean. -/
inductive JVal
  | num (q : ℚ)
  | nan
  | null
  | undef
  | str (s : String)
  | bool (b : Bool)
deriving DecidableEq

/-- Value of a decimal digit character. -/
def digitVal (c : Char) : ℕ := c.toNat - 48

/-- Reads a maximal run of decimal digits, returning the accumulated value,
the number of digits consumed and the remaining characters. -/
def readDigits : List Char → ℕ → ℕ → ℕ × ℕ × List Char
  | [], v, n => (v, n, [])
  | c :: cs, v, n =>
    if c.isDigit then readDigits cs (10 * v + digitVal c) (n + 1) else (v, n, c :: cs)

/-- Parses an unsigned decimal numeral, with an optional fractional part;
none models NaN. -/
def parseUnsigned (cs : List Char) : Option ℚ :=
  match readDigits cs 0 0 with
  | (v, n, []) => if n = 0 then none else some (v : ℚ)
  | (v, n, c :: rest) =>
    if c = '.' then
      match readDigits rest 0 0 with
      | (fv, fn, []) =>
        if n + fn = 0 then none else some ((v : ℚ) + (fv : ℚ) / (10 : ℚ) ^ fn)
      | _ => none
    else none

/-- Whitespace for the Number(string) coercion's trimming. -/
def isSpaceChar (c : Char) : Bool := c = ' ' || c = '\t' || c = '\n' || c = '\r'

/-- Model of the JavaScript Number(string) coercion on the decimal subset
(whitespace trimmed, optional sign, digits, optional fraction; a blank
string is 0); exotic forms (exponents, hex, Infinity) are outside the
model and all claims.  none models NaN. -/
def parseNum (s : String) : Option ℚ :=
  match ((s.toList.dropWhile isSpaceChar).reverse.dropWhile isSpaceChar).reverse with
  | [] => some 0
  | c :: cs =>
    if c = '-' then (parseUnsigned cs).map (fun q => -q)
    else if c = '+' then parseUnsigned cs
    else parseUnsigned (c :: cs)

/-- JavaScript truthiness of a rate-field value. -/
def JVal.truthy : JVal → Bool
  | .num q => decide (q ≠ 0)
  | .nan => false
  | .null => false
  | .undef => false
  | .str s => decide (s ≠ "")
  | .bool b => b

/-- JavaScript Number(x) coercion; none models NaN. -/
def jsToNumber : JVal → Option ℚ
  | .num q => some q
  | .nan => none
  | .null => some 0
  | .undef => none
  | .str s => parseNum s
  | .bool b => some (if b then 1 else 0)

/-- The expression Number(x) with a final fallback to 0, as in the
source's Number(point.rx_rate) with an or-zero guard. -/
def numberOr0 (v : JVal) : ℚ := (jsToNumber v).getD 0

/-- A JavaScript value sitting in the timestamp field of a raw sample: a
string, a Date object (possibly invalid), a finite number, NaN, null or
undefined. -/
inductive TVal
  | str (s : String)
  | date (d : JDate)
  | num (n : ℤ)
  | nan
  | null
  | undef
deriving DecidableEq

/-- JavaScript truthiness of a timestamp value (a Date object is always
truthy, even an Invalid Date). -/
def TVal.truthy : TVal → Bool
  | .str s => decide (s ≠ "")
  | .date _ => true
  | .num n => decide (n ≠ 0)
  | .nan => false
  | .null => false
  | .undef => false

/-- Abstraction of the external timestamp collaborators: parseIso models
date-fns parseISO (none = Invalid Date), dateCtor models new Date(string)
parsing (none = Invalid Date), tzShift models the instant adjustment of
date-fns-tz utcToZonedTime on a valid date. -/
structure TzEnv where
  parseIso : String → Option ℤ
  dateCtor : String → Option ℤ
  tzShift : ℤ → ℤ

/-- Model of new Date(timestamp) for each timestamp shape (the catch-block
fallback of normalizeTimestamp). -/
def jsNewDate (env : TzEnv) : TVal → JDate
  | .str s => env.dateCtor s
  | .date d => d
  | .num n => some n
  | .nan => none
  | .null => some 0
  | .undef => none

/-- The date computed by normalizeTimestamp for a truthy input: parse the
string (appending Z when no ISO marker is present), keep a Date, wrap a
number; then utcToZonedTime shifts a valid date, while an invalid date
makes utcToZonedTime raise and the catch block returns new Date(timestamp).
Mirrors the api service source. -/
def normDate (env : TzEnv) (raw : TVal) : JDate :=
  let date : JDate :=
    match raw with
    | .str s =>
      if s.toList.contains 'T' || s.toList.contains 'Z' then env.parseIso s
      else env.parseIso (s ++ "Z")
    | .date d => d
    | .num n => some n
    | .nan => none
    | .null => some 0
    | .undef => none
  match date with
  | some t => some (env.tzShift t)
  | none => jsNewDate env raw

/-- normalizeTimestamp from the api service: null (outer none) exactly for
a falsy input, otherwise the computed (possibly Invalid) Date. -/
def normalizeTimestamp (env : TzEnv) (raw : TVal) : Option JDate :=
  if raw.truthy then some (normDate env raw) else none

/-- JavaScript < between two Dates: false whenever an Invalid Date is
involved (NaN comparisons are false). -/
def jdLt (a b : JDate) : Bool :=
  match a, b with
  | some x, some y => decide (x < y)
  | _, _ => false

/-- The sort comparator (a, b) => dateA - dateB being not positive; a NaN
difference (Invalid Date) is treated as a tie, hence true. -/
def jdLeB (a b : JDate) : Bool :=
  match a, b with
  | some x, some y => decide (x ≤ y)
  | _, _ => true

/-- getMinutes on the modelled timeline. -/
def minutesOf (ms : ℤ) : ℤ := ms / 60000 % 60

/-- getHours on the modelled timeline. -/
def hoursOf (ms : ℤ) : ℤ := ms / 3600000 % 24

/-- startOfHour on the modelled timeline. -/
def hourStartMs (ms : ℤ) : ℤ := ms - ms % 3600000

/-- startOfDay on the modelled timeline. -/
def dayStartMs (ms : ℤ) : ℤ := ms - ms % 86400000

/-- The standardization interval in seconds chosen by standardizeTimestamp
(5 s for 1h/6h, 30 s for 12h/1d, 60 s for 3d/1w, default 5 s). -/
def intervalSeconds (timeRange : String) : ℤ :=
  match timeRange with
  | "1h" => 5
  | "6h" => 5
  | "12h" => 30
  | "1d" => 30
  | "3d" => 60
  | "1w" => 60
  | _ => 5

/-- standardizeTimestamp: floor the seconds field to a multiple of the
interval and clear the milliseconds (setSeconds(standardizedSeconds, 0)).
Operations on an Invalid Date stay invalid. -/
def standardizeTimestamp (t : JDate) (timeRange : String) : JDate :=
  t.map fun ms =>
    let sec := ms / 1000 % 60
    let ssec := sec / intervalSeconds timeRange * intervalSeconds timeRange
    ms - ms % 60000 + ssec * 1000

/-- floor(floor(h / 1.2) * 1.2) for an hour value 0..23; with h < 24 the
double rounding of the source coincides with exact arithmetic on
1.2 = 6 / 5, so floor(h / 1.2) = 5 * h / 6 and floor(k * 1.2) = 6 * k / 5
in natural division. -/
def bucketHours3d (h : ℕ) : ℕ := 6 * (5 * h / 6) / 5

/-- floor(floor(h / 2.8) * 2.8) with 2.8 = 14 / 5, as in bucketHours3d. -/
def bucketHours1w (h : ℕ) : ℕ := 14 * (5 * h / 14) / 5

/-- The bucket-key computation of the function returned by
getTimeBucketFunction, on a valid instant. -/
def bucketMs (timeRange : String) (ms : ℤ) : ℤ :=
  match timeRange with
  | "1h" => ms - ms % 60000
  | "6h" => hourStartMs ms + minutesOf ms / 6 * 6 * 60000
  | "12h" => hourStartMs ms + minutesOf ms / 12 * 12 * 60000
  | "1d" => hourStartMs ms + minutesOf ms / 24 * 24 * 60000
  | "3d" => dayStartMs ms + (bucketHours3d (hoursOf ms).toNat : ℤ) * 3600000
  | "1w" => dayStartMs ms + (bucketHours1w (hoursOf ms).toNat : ℤ) * 3600000
  | _ => ms - ms % 60000

/-- getTimeBucketFunction applied to a date; an Invalid Date is mapped to
an Invalid Date. -/
def getTimeBucketFunction (timeRange : String) (d : JDate) : JDate :=
  d.map (bucketMs timeRange)

/-- getTargetDataPoints from the source: 60 for every range. -/
def getTargetDataPoints (timeRange : String) : ℕ :=
  if timeRange = "1h" then 60
  else if timeRange = "6h" then 60
  else if timeRange = "12h" then 60
  else if timeRange = "1d" then 60
  else if timeRange = "3d" then 60
  else if timeRange = "1w" then 60
  else 60

/-- getTimeRangeCutoff: now minus the window duration in milliseconds,
with unknown labels falling back to one hour. -/
def getTimeRangeCutoff (timeRange : String) (now : ℤ) : ℤ :=
  if timeRange = "1h" then now - 3600000
  else if timeRange = "6h" then now - 21600000
  else if timeRange = "12h" then now - 43200000
  else if timeRange = "1d" then now - 86400000
  else if timeRange = "3d" then now - 259200000
  else if timeRange = "1w" then now - 604800000
  else now - 3600000

/-- One raw sample record as consumed by the aggregators. -/
structure RawPoint where
  timestamp : TVal
  rx_rate : JVal
  tx_rate : JVal
deriving DecidableEq

/-- The guard (!point.rx_rate && point.rx_rate !== 0) of the aggregators:
skip when the value is falsy yet not the number 0. -/
def skipRate (v : JVal) : Bool := !v.truthy && decide (v ≠ JVal.num 0)

/-- Association-list lookup, the model of Map.get / Map.has (first entry
with the key; the maps built below have pairwise distinct keys). -/
def mfind {K V : Type} [DecidableEq K] (k : K) : List (K × V) → Option V
  | [] => none
  | e :: m => if e.1 = k then some e.2 else mfind k m

/-- Updating in place the value stored under a key, the model of mutating
the object obtained from Map.get. -/
def mapUpd {K V : Type} [DecidableEq K] (k : K) (f : V → V) (m : List (K × V)) :
    List (K × V) :=
  m.map fun e => if e.1 = k then (e.1, f e.2) else e

/-- Map.set: replace the value in place when the key exists, append a new
entry otherwise (JavaScript Map preserves insertion order). -/
def mapSet {K V : Type} [DecidableEq K] (k : K) (v : V) (m : List (K × V)) :
    List (K × V) :=
  match mfind k m with
  | some _ => m.map (fun e => if e.1 = k then (k, v) else e)
  | none => m ++ [(k, v)]

/-- A single-series bucket as built by aggregateDataByTime. -/
structure SBucket where
  timestamp : JDate
  rx_values : List ℚ
  tx_values : List ℚ
  count : ℕ
deriving DecidableEq

/-- Pushing one sample's coerced rates onto a bucket. -/
def bumpS (rx tx : ℚ) (b : SBucket) : SBucket :=
  ⟨b.timestamp, b.rx_values ++ [rx], b.tx_values ++ [tx], b.count + 1⟩

/-- The per-sample body of the forEach loop of aggregateDataByTime:
validity guard, normalization, cutoff filter, standardization, bucket-key
computation, lazy bucket creation and push. -/
def insertPointS (env : TzEnv) (timeRange : String) (now : ℤ)
    (m : List (JDate × SBucket)) (p : RawPoint) : List (JDate × SBucket) :=
  if !p.timestamp.truthy || skipRate p.rx_rate || skipRate p.tx_rate then m
  else
    let normalizedTime := normDate env p.timestamp
    if jdLt normalizedTime (some (getTimeRangeCutoff timeRange now)) then m
    else
      let bucketTime :=
        getTimeBucketFunction timeRange (standardizeTimestamp normalizedTime timeRange)
      let m1 :=
        match mfind bucketTime m with
        | some _ => m
        | none => m ++ [(bucketTime, ⟨bucketTime, [], [], 0⟩)]
      mapUpd bucketTime (bumpS (numberOr0 p.rx_rate) (numberOr0 p.tx_rate)) m1

/-- One output point of aggregateDataByTime (timestamp_formatted omitted,
see the header). -/
structure SPoint where
  timestamp : JDate
  rx_rate : ℚ
  tx_rate : ℚ
  data_points : ℕ
deriving DecidableEq

/-- Averaging one bucket into an output point. -/
def mkSPoint (b : SBucket) : SPoint :=
  ⟨b.timestamp,
   if b.rx_values.length > 0 then b.rx_values.sum / (b.rx_values.length : ℚ) else 0,
   if b.tx_values.length > 0 then b.tx_values.sum / (b.tx_values.length : ℚ) else 0,
   b.count⟩

/-- Stable insertion of an element before the first list member it is not
ordered after. -/
def insOrd {α : Type} (le : α → α → Bool) (a : α) : List α → List α
  | [] => [a]
  | b :: l => if le a b then a :: b :: l else b :: insOrd le a l

/-- Stable sort modelling Array.prototype.sort (see the header). -/
def jsSort {α : Type} (le : α → α → Bool) : List α → List α
  | [] => []
  | a :: l => insOrd le a (jsSort le l)

/-- Comparator order for single-series points. -/
def sPointLe (a b : SPoint) : Bool := jdLeB a.timestamp b.timestamp

/-- slice(-target) applied when more points than the target exist. -/
def limitPoints {α : Type} (timeRange : String) (l : List α) : List α :=
  if l.length > getTargetDataPoints timeRange then
    l.drop (l.length - getTargetDataPoints timeRange)
  else l

/-- The sorted, averaged bucket list of aggregateDataByTime before the
final truncation. -/
def sortedAggregated (env : TzEnv) (timeRange : String) (now : ℤ)
    (rawData : List RawPoint) : List SPoint :=
  jsSort sPointLe ((rawData.foldl (insertPointS env timeRange now) []).map
    (fun e => mkSPoint e.2))

/-- The date-fns format call evaluated for the timestamp_formatted field
of an output point: it throws a RangeError on an Invalid Date, otherwise
renders a display string (whose content the output model does not
retain). -/
def formatTs (d : JDate) : Except Unit Unit :=
  match d with
  | none => Except.error ()
  | some _ => Except.ok ()

/-- The .map over the bucket list that builds the output points: each
point's object literal calls format on the bucket timestamp, so the map
throws at the first Invalid-Date bucket and otherwise yields every
point. -/
def mapFmt {β α : Type} (ts : β → JDate) (f : β → α) :
    List β → Except Unit (List α)
  | [] => Except.ok []
  | b :: t =>
    match formatTs (ts b) with
    | Except.error e => Except.error e
    | Except.ok _ =>
      match mapFmt ts f t with
      | Except.error e => Except.error e
      | Except.ok pts => Except.ok (f b :: pts)

/-- aggregateDataByTime from the source: group into buckets, build the
output points (formatting each bucket timestamp, which throws on an
Invalid Date), sort, truncate. -/
def aggregateDataByTime (env : TzEnv) (timeRange : String) (now : ℤ)
    (rawData : List RawPoint) : Except Unit (List SPoint) :=
  if rawData.isEmpty then Except.ok []
  else
    match mapFmt (fun e => e.2.timestamp) (fun e => mkSPoint e.2)
        (rawData.foldl (insertPointS env timeRange now) []) with
    | Except.error e => Except.error e
    | Except.ok pts => Except.ok (limitPoints timeRange (jsSort sPointLe pts))

/-- The output-building map of aggregateDataByTime does not throw: no
bucket carries an Invalid Date. -/
def bucketsValidS (env : TzEnv) (timeRange : String) (now : ℤ)
    (rawData : List RawPoint) : Bool :=
  (rawData.foldl (insertPointS env timeRange now) []).all
    (fun e => e.2.timestamp.isSome)

/-- Per-server value lists inside a combined bucket. -/
structure SrvVals where
  rx_values : List ℚ
  tx_values : List ℚ
deriving DecidableEq

/-- A combined bucket: per-server sample values keyed by server index.
The total_rx / total_tx / server_count fields the source initializes on
the bucket are never read (the output pass recomputes them in locals), so
they are omitted. -/
structure CBucket where
  timestamp : JDate
  servers : List (ℕ × SrvVals)
deriving DecidableEq

/-- Pushing one sample's coerced rates onto a per-server entry. -/
def bumpSrv (rx tx : ℚ) (sv : SrvVals) : SrvVals :=
  ⟨sv.rx_values ++ [rx], sv.tx_values ++ [tx]⟩

/-- Adding one sample of one server to a combined bucket: lazily create
the server entry, then push. -/
def cbucketAdd (serverIndex : ℕ) (rx tx : ℚ) (b : CBucket) : CBucket :=
  let svs :=
    match mfind serverIndex b.servers with
    | some _ => b.servers
    | none => b.servers ++ [(serverIndex, ⟨[], []⟩)]
  ⟨b.timestamp, mapUpd serverIndex (bumpSrv rx tx) svs⟩

/-- The per-sample body of the inner forEach of
aggregateCombinedServerData; the filtering pipeline is identical to
insertPointS. -/
def insertPointC (env : TzEnv) (timeRange : String) (now : ℤ) (serverIndex : ℕ)
    (m : List (JDate × CBucket)) (p : RawPoint) : List (JDate × CBucket) :=
  if !p.timestamp.truthy || skipRate p.rx_rate || skipRate p.tx_rate then m
  else
    let normalizedTime := normDate env p.timestamp
    if jdLt normalizedTime (some (getTimeRangeCutoff timeRange now)) then m
    else
      let bucketTime :=
        getTimeBucketFunction timeRange (standardizeTimestamp normalizedTime timeRange)
      let m1 :=
        match mfind bucketTime m with
        | some _ => m
        | none => m ++ [(bucketTime, ⟨bucketTime, []⟩)]
      mapUpd bucketTime
        (cbucketAdd serverIndex (numberOr0 p.rx_rate) (numberOr0 p.tx_rate)) m1

/-- The bucket map built by the two nested forEach loops of
aggregateCombinedServerData (servers enumerated with their index; an
empty server array is skipped). -/
def buildC (env : TzEnv) (timeRange : String) (now : ℤ)
    (allServerData : List (List RawPoint)) : List (JDate × CBucket) :=
  allServerData.enum.foldl
    (fun m e => if e.2.isEmpty then m
      else e.2.foldl (insertPointC env timeRange now e.1) m) []

/-- One output point of aggregateCombinedServerData (timestamp_formatted
omitted). -/
structure CPoint where
  timestamp : JDate
  total_rx : ℚ
  total_tx : ℚ
  server_count : ℕ
deriving DecidableEq

/-- Combining one bucket: servers with at least one pushed value
contribute their per-server means; totals are the sums of those means. -/
def mkCPoint (b : CBucket) : CPoint :=
  let contrib := b.servers.filter
    (fun e => decide (0 < e.2.rx_values.length) && decide (0 < e.2.tx_values.length))
  ⟨b.timestamp,
   (contrib.map (fun e => e.2.rx_values.sum / (e.2.rx_values.length : ℚ))).sum,
   (contrib.map (fun e => e.2.tx_values.sum / (e.2.tx_values.length : ℚ))).sum,
   contrib.length⟩

/-- Comparator order for combined points. -/
def cPointLe (a b : CPoint) : Bool := jdLeB a.timestamp b.timestamp

/-- The sorted combined list before the final truncation: average, keep
only buckets with a contributing server, sort. -/
def sortedCombined (env : TzEnv) (timeRange : String) (now : ℤ)
    (allServerData : List (List RawPoint)) : List CPoint :=
  jsSort cPointLe (((buildC env timeRange now allServerData).map
    (fun e => mkCPoint e.2)).filter (fun p => decide (0 < p.server_count)))

/-- aggregateCombinedServerData from the source: group into buckets,
build the combined points (formatting each bucket timestamp, which throws
on an Invalid Date, before the server_count filter), filter, sort,
truncate. -/
def aggregateCombinedServerData (env : TzEnv) (timeRange : String) (now : ℤ)
    (allServerData : List (List RawPoint)) : Except Unit (List CPoint) :=
  if allServerData.isEmpty then Except.ok []
  else
    match mapFmt (fun e => e.2.timestamp) (fun e => mkCPoint e.2)
        (buildC env timeRange now allServerData) with
    | Except.error e => Except.error e
    | Except.ok pts =>
      Except.ok (limitPoints timeRange (jsSort cPointLe
        (pts.filter (fun p => decide (0 < p.server_count)))))

/-- The output-building map of aggregateCombinedServerData does not
throw: no bucket carries an Invalid Date. -/
def bucketsValidC (env : TzEnv) (timeRange : String) (now : ℤ)
    (allServerData : List (List RawPoint)) : Bool :=
  (buildC env timeRange now allServerData).all
    (fun e => e.2.timestamp.isSome)

/-- One output point of aggregateRealtimeData. -/
structure RPoint where
  timestamp : JDate
  total_throughput : ℚ
  data_points : ℕ
deriving DecidableEq

/-- Comparator order for realtime points. -/
def rPointLe (a b : RPoint) : Bool := jdLeB a.timestamp b.timestamp

/-- The key of the i-th pre-created realtime bucket:
floor((startTime + 30 s * i) / 30 s) * 30 s. -/
def rtGridKey (startTime : ℤ) (i : ℕ) : ℤ :=
  (startTime + (i : ℤ) * 30000) / 30000 * 30000

/-- The pre-created 30-bucket map of aggregateRealtimeData. -/
def rtInit (startTime : ℤ) : List (ℤ × SBucket) :=
  (List.range 30).foldl
    (fun m i => mapSet (rtGridKey startTime i)
      ⟨some (rtGridKey startTime i), [], [], 0⟩ m) []

/-- The per-sample body of the forEach of aggregateRealtimeData: guard,
normalization, 15-minute filter, 30-second key, and a push that happens
only when the key hits a pre-created bucket (an Invalid Date key, NaN,
never does). -/
def rtAssign (env : TzEnv) (startTime : ℤ) (m : List (ℤ × SBucket))
    (p : RawPoint) : List (ℤ × SBucket) :=
  if !p.timestamp.truthy || skipRate p.rx_rate || skipRate p.tx_rate then m
  else
    let pointTime := normDate env p.timestamp
    if jdLt pointTime (some startTime) then m
    else
      match pointTime with
      | none => m
      | some t =>
        let bucketKey := t / 30000 * 30000
        match mfind bucketKey m with
        | some _ =>
          mapUpd bucketKey (bumpS (numberOr0 p.rx_rate) (numberOr0 p.tx_rate)) m
        | none => m

/-- Averaging one realtime bucket: mean rx plus mean tx. -/
def mkRPoint (b : SBucket) : RPoint :=
  let avgRx :=
    if b.rx_values.length > 0 then b.rx_values.sum / (b.rx_values.length : ℚ) else 0
  let avgTx :=
    if b.tx_values.length > 0 then b.tx_values.sum / (b.tx_values.length : ℚ) else 0
  ⟨b.timestamp, avgRx + avgTx, b.count⟩

/-- aggregateRealtimeData from the realtime chart source; now is the
normalized current time (an explicit parameter, see the header), the
window start is now minus 15 minutes. -/
def aggregateRealtimeData (env : TzEnv) (now : ℤ) (rawData : List RawPoint) :
    List RPoint :=
  if rawData.isEmpty then []
  else
    let startTime := now - 900000
    jsSort rPointLe ((rawData.foldl (rtAssign env startTime) (rtInit startTime)).map
      (fun e => mkRPoint e.2))

/-! ### Generic machinery: keyed accumulation into an insertion-ordered map

The three aggregators all build a JavaScript Map by the same pattern:
compute an optional key for each element, create the bucket on first use,
then push onto it.  keyedStep / keyedBuild capture that pattern once; the
characterization keyedBuild_eq rewrites the resulting association list as
a map over the first-occurrence-deduplicated key list, each key paired
with a fold of the elements of its group. -/

def keyedStep {ι K B : Type} [DecidableEq K] (κ : ι → Option K) (mk : K → B)
    (add : ι → B → B) (m : List (K × B)) (x : ι) : List (K × B) :=
  match κ x with
  | none => m
  | some k =>
    let m1 :=
      match mfind k m with
      | some _ => m
      | none => m ++ [(k, mk k)]
    mapUpd k (add x) m1

def keyedBuild {ι K B : Type} [DecidableEq K] (κ : ι → Option K) (mk : K → B)
    (add : ι → B → B) (l : List ι) : List (K × B) :=
  l.foldl (keyedStep κ mk add) []

/-- First-occurrence deduplication (JavaScript Map key order). -/
def firstDedup {K : Type} [DecidableEq K] : List K → List K
  | [] => []
  | k :: l => k :: (firstDedup l).filter (fun x => decide (x ≠ k))

/-- The bucket keys produced by a list, in creation order. -/
def keysOf {ι K : Type} [DecidableEq K] (κ : ι → Option K) (l : List ι) : List K :=
  firstDedup (l.filterMap κ)

/-- The elements of a list landing in a given bucket. -/
def groupFor {ι K : Type} [DecidableEq K] (κ : ι → Option K) (l : List ι) (k : K) :
    List ι :=
  l.filter (fun x => decide (κ x = some k))

theorem mem_firstDedup {K : Type} [DecidableEq K] {l : List K} {a : K} :
    a ∈ firstDedup l ↔ a ∈ l := by
  induction l with
  | nil => simp [firstDedup]
  | cons b t ih =>
    simp only [firstDedup, List.mem_cons, List.mem_filter, ih, decide_eq_true_eq]
    constructor
    · rintro (h | ⟨h, _⟩)
      · exact Or.inl h
      · exact Or.inr h
    · rintro (h | h)
      · exact Or.inl h
      · by_cases hb : a = b
        · exact Or.inl hb
        · exact Or.inr ⟨h, hb⟩

theorem nodup_firstDedup {K : Type} [DecidableEq K] (l : List K) :
    (firstDedup l).Nodup := by
  induction l with
  | nil => simp [firstDedup]
  | cons b t ih =>
    simp only [firstDedup, List.nodup_cons]
    refine ⟨fun h => ?_, ih.filter _⟩
    have := (List.mem_filter.mp h).2
    simp at this

theorem firstDedup_cons {K : Type} [DecidableEq K] (k : K) (l : List K) :
    firstDedup (k :: l) = k :: (firstDedup l).filter (fun x => decide (x ≠ k)) := rfl

theorem firstDedup_append_singleton {K : Type} [DecidableEq K] (l : List K) (k : K) :
    firstDedup (l ++ [k]) = firstDedup l ++ if k ∈ l then [] else [k] := by
  induction l with
  | nil => simp [firstDedup]
  | cons a t ih =>
    rw [List.cons_append, firstDedup_cons, firstDedup_cons, ih, List.filter_append]
    by_cases hak : k = a
    · subst hak
      rw [if_pos (List.mem_cons_self k t), List.append_nil]
      by_cases hkt : k ∈ t
      · rw [if_pos hkt]; simp
      · rw [if_neg hkt]; simp
    · by_cases hkt : k ∈ t
      · rw [if_pos hkt, if_pos (List.mem_cons_of_mem _ hkt)]
        simp
      · rw [if_neg hkt, if_neg (by simp [List.mem_cons, hak, hkt])]
        simp [hak]

theorem mfind_mapform {K B : Type} [DecidableEq K] (keys : List K) (f : K → B)
    (k : K) :
    mfind k (keys.map (fun k2 => (k2, f k2))) =
      if k ∈ keys then some (f k) else none := by
  induction keys with
  | nil => simp [mfind]
  | cons a t ih =>
    simp only [List.map_cons, mfind]
    by_cases h : a = k
    · subst h; simp
    · rw [if_neg h, ih]
      by_cases hk : k ∈ t
      · rw [if_pos hk, if_pos (List.mem_cons_of_mem _ hk)]
      · rw [if_neg hk, if_neg ?_]
        simp only [List.mem_cons, hk, or_false]
        exact fun hh => h hh.symm

theorem mapUpd_mapform {K B : Type} [DecidableEq K] (keys : List K) (f : K → B)
    (k : K) (g : B → B) :
    mapUpd k g (keys.map (fun k2 => (k2, f k2))) =
      keys.map (fun k2 => (k2, if k2 = k then g (f k2) else f k2)) := by
  simp only [mapUpd, List.map_map]
  apply List.map_congr_left
  intro a _
  by_cases h : a = k <;> simp [h]

theorem keyedBuild_eq {ι K B : Type} [DecidableEq K] (κ : ι → Option K)
    (mk : K → B) (add : ι → B → B) (l : List ι) :
    keyedBuild κ mk add l =
      (keysOf κ l).map
        (fun k => (k, (groupFor κ l k).foldl (fun b x => add x b) (mk k))) := by
  induction l using List.reverseRecOn with
  | nil => rfl
  | append_singleton t x ih =>
    have hfold : keyedBuild κ mk add (t ++ [x]) =
        keyedStep κ mk add (keyedBuild κ mk add t) x := by
      simp [keyedBuild, List.foldl_append]
    rw [hfold, ih]
    cases hx : κ x with
    | none =>
      have hkeys : keysOf κ (t ++ [x]) = keysOf κ t := by
        simp [keysOf, List.filterMap_append, hx]
      have hgroup : ∀ k, groupFor κ (t ++ [x]) k = groupFor κ t k := by
        intro k
        simp [groupFor, List.filter_append, hx]
      simp only [keyedStep, hx, hkeys]
      congr 1
      funext k
      rw [hgroup]
    | some k0 =>
      have hfm : (t ++ [x]).filterMap κ = t.filterMap κ ++ [k0] := by
        simp [List.filterMap_append, hx]
      have hgroup : ∀ k, groupFor κ (t ++ [x]) k =
          groupFor κ t k ++ if k0 = k then [x] else [] := by
        intro k
        by_cases hk : k0 = k <;>
          simp [groupFor, List.filter_append, hx, hk]
      by_cases hk0 : k0 ∈ t.filterMap κ
      · have hkeys : keysOf κ (t ++ [x]) = keysOf κ t := by
          simp [keysOf, hfm, firstDedup_append_singleton, hk0]
        have hmem : k0 ∈ keysOf κ t := mem_firstDedup.mpr hk0
        simp only [keyedStep, hx, mfind_mapform, hmem, if_pos, hkeys,
          mapUpd_mapform]
        congr 1
        funext k
        rw [hgroup]
        by_cases hk : k = k0
        · subst hk
          simp [List.foldl_append]
        · have hk2 : ¬k0 = k := fun h => hk h.symm
          simp [hk, hk2]
      · have hkeys : keysOf κ (t ++ [x]) = keysOf κ t ++ [k0] := by
          simp [keysOf, hfm, firstDedup_append_singleton, hk0]
        have hmem : k0 ∉ keysOf κ t := fun h => hk0 (mem_firstDedup.mp h)
        have hg0 : groupFor κ t k0 = [] := by
          rw [groupFor, List.filter_eq_nil_iff]
          intro y hy
          simp only [decide_eq_true_eq]
          intro hy2
          exact hk0 (List.mem_filterMap.mpr ⟨y, hy, hy2⟩)
        have hsplit : (keysOf κ t).map
              (fun k => (k, (groupFor κ t k).foldl (fun b x => add x b) (mk k)))
              ++ [(k0, mk k0)] =
            (keysOf κ t ++ [k0]).map
              (fun k => (k, if k = k0 then mk k0
                else (groupFor κ t k).foldl (fun b x => add x b) (mk k))) := by
          rw [List.map_append]
          congr 1
          · apply List.map_congr_left
            intro a ha
            have : a ≠ k0 := fun h => hmem (h ▸ ha)
            simp [this]
          · simp
        have hfind : mfind k0 ((keysOf κ t).map
            (fun k => (k, (groupFor κ t k).foldl (fun b x => add x b) (mk k)))) =
            none := by
          rw [mfind_mapform, if_neg hmem]
        simp only [keyedStep, hx, hfind, hkeys, hsplit, mapUpd_mapform]
        apply List.map_congr_left
        intro a ha
        rw [hgroup]
        by_cases hk : a = k0
        · subst hk
          simp [hg0]
        · have hk2 : ¬k0 = a := fun h => hk h.symm
          simp [hk, hk2]

/-! ### Sorting lemmas for the stable sort model -/

theorem insOrd_nil {α : Type} (le : α → α → Bool) (a : α) : insOrd le a [] = [a] := rfl

theorem insOrd_cons {α : Type} (le : α → α → Bool) (a b : α) (l : List α) :
    insOrd le a (b :: l) = if le a b then a :: b :: l else b :: insOrd le a l := rfl

theorem jsSort_nil {α : Type} (le : α → α → Bool) : jsSort le [] = [] := rfl

theorem jsSort_cons {α : Type} (le : α → α → Bool) (a : α) (l : List α) :
    jsSort le (a :: l) = insOrd le a (jsSort le l) := rfl

theorem insOrd_perm {α : Type} (le : α → α → Bool) (a : α) (l : List α) :
    (insOrd le a l).Perm (a :: l) := by
  induction l with
  | nil => exact List.Perm.refl _
  | cons b t ih =>
    rw [insOrd_cons]
    by_cases h : le a b
    · rw [if_pos h]
    · rw [if_neg h]
      exact (List.Perm.cons b ih).trans (List.Perm.swap a b t)

theorem jsSort_perm {α : Type} (le : α → α → Bool) (l : List α) :
    (jsSort le l).Perm l := by
  induction l with
  | nil => exact List.Perm.refl _
  | cons a t ih =>
    rw [jsSort_cons]
    exact (insOrd_perm le a (jsSort le t)).trans (List.Perm.cons a ih)

theorem insOrd_congr {α : Type} {le1 le2 : α → α → Bool} (a : α) {l : List α}
    (h : ∀ b ∈ l, le1 a b = le2 a b) : insOrd le1 a l = insOrd le2 a l := by
  induction l with
  | nil => rfl
  | cons b t ih =>
    rw [insOrd_cons, insOrd_cons, h b (List.mem_cons_self b t),
      ih (fun c hc => h c (List.mem_cons_of_mem _ hc))]

theorem jsSort_congr {α : Type} {le1 le2 : α → α → Bool} {l : List α}
    (h : ∀ a ∈ l, ∀ b ∈ l, le1 a b = le2 a b) : jsSort le1 l = jsSort le2 l := by
  induction l with
  | nil => rfl
  | cons a t ih =>
    rw [jsSort_cons, jsSort_cons,
      ih (fun x hx y hy => h x (List.mem_cons_of_mem _ hx) y (List.mem_cons_of_mem _ hy))]
    apply insOrd_congr
    intro b hb
    exact h a (List.mem_cons_self a t)
      b (List.mem_cons_of_mem _ ((jsSort_perm le2 t).mem_iff.mp hb))

theorem pairwise_insOrd {α : Type} (le : α → α → Bool)
    (htot : ∀ a b, le a b = true ∨ le b a = true)
    (htrans : ∀ a b c, le a b = true → le b c = true → le a c = true)
    (a : α) {l : List α} (hl : l.Pairwise (fun x y => le x y = true)) :
    (insOrd le a l).Pairwise (fun x y => le x y = true) := by
  induction l with
  | nil => simp [insOrd_nil]
  | cons b t ih =>
    rw [insOrd_cons]
    by_cases h : le a b
    · rw [if_pos h]
      refine List.Pairwise.cons (fun y hy => ?_) hl
      rcases List.mem_cons.mp hy with rfl | hyt
      · exact h
      · exact htrans a b y h (List.rel_of_pairwise_cons hl hyt)
    · rw [if_neg h]
      have hba : le b a = true := (htot a b).resolve_left (by simpa using h)
      refine List.Pairwise.cons (fun y hy => ?_) (ih hl.of_cons)
      rcases (insOrd_perm le a t).mem_iff.mp hy with hy2
      rcases List.mem_cons.mp hy2 with rfl | hyt
      · exact hba
      · exact List.rel_of_pairwise_cons hl hyt

theorem pairwise_jsSort {α : Type} (le : α → α → Bool)
    (htot : ∀ a b, le a b = true ∨ le b a = true)
    (htrans : ∀ a b c, le a b = true → le b c = true → le a c = true)
    (l : List α) : (jsSort le l).Pairwise (fun x y => le x y = true) := by
  induction l with
  | nil => simp [jsSort_nil]
  | cons a t ih =>
    rw [jsSort_cons]
    exact pairwise_insOrd le htot htrans a ih

theorem jsSort_eq_self {α : Type} (le : α → α → Bool) {l : List α}
    (h : l.Pairwise (fun x y => le x y = true)) : jsSort le l = l := by
  induction l with
  | nil => rfl
  | cons a t ih =>
    rw [jsSort_cons, ih h.of_cons]
    cases t with
    | nil => rfl
    | cons b t2 =>
      rw [insOrd_cons, if_pos (List.rel_of_pairwise_cons h (List.mem_cons_self b t2))]

/-! ### Characterization of aggregateDataByTime -/

/-- The bucket key assigned to one sample by the shared pipeline of the
two time-range aggregators (none when the sample is skipped by the
validity guard or the cutoff filter). -/
def sampleKeyS (env : TzEnv) (timeRange : String) (now : ℤ) (p : RawPoint) :
    Option JDate :=
  if !p.timestamp.truthy || skipRate p.rx_rate || skipRate p.tx_rate then none
  else
    let normalizedTime := normDate env p.timestamp
    if jdLt normalizedTime (some (getTimeRangeCutoff timeRange now)) then none
    else some (getTimeBucketFunction timeRange
      (standardizeTimestamp normalizedTime timeRange))

theorem insertPointS_eq_keyedStep (env : TzEnv) (tr : String) (now : ℤ)
    (m : List (JDate × SBucket)) (p : RawPoint) :
    insertPointS env tr now m p =
      keyedStep (sampleKeyS env tr now) (fun k => ⟨k, [], [], 0⟩)
        (fun q => bumpS (numberOr0 q.rx_rate) (numberOr0 q.tx_rate)) m p := by
  by_cases h1 : (!p.timestamp.truthy || skipRate p.rx_rate || skipRate p.tx_rate) = true
  · simp [insertPointS, sampleKeyS, keyedStep, h1]
  · by_cases h2 : jdLt (normDate env p.timestamp)
        (some (getTimeRangeCutoff tr now)) = true
    · simp [insertPointS, sampleKeyS, keyedStep, h1, h2]
    · simp only [insertPointS, sampleKeyS, keyedStep, h1, h2, if_false,
        Bool.false_eq_true, if_neg]
      cases hm : mfind (getTimeBucketFunction tr
          (standardizeTimestamp (normDate env p.timestamp) tr)) m <;>
        simp [hm]

/-- The bucket stored under one key, in direct terms of the input list. -/
def sBucketFor (env : TzEnv) (tr : String) (now : ℤ) (l : List RawPoint)
    (k : JDate) : SBucket :=
  ⟨k, (groupFor (sampleKeyS env tr now) l k).map (fun p => numberOr0 p.rx_rate),
   (groupFor (sampleKeyS env tr now) l k).map (fun p => numberOr0 p.tx_rate),
   (groupFor (sampleKeyS env tr now) l k).length⟩

theorem foldl_bumpS (l : List RawPoint) (b : SBucket) :
    l.foldl (fun b q => bumpS (numberOr0 q.rx_rate) (numberOr0 q.tx_rate) b) b =
      ⟨b.timestamp, b.rx_values ++ l.map (fun p => numberOr0 p.rx_rate),
       b.tx_values ++ l.map (fun p => numberOr0 p.tx_rate), b.count + l.length⟩ := by
  induction l generalizing b with
  | nil => simp
  | cons p t ih =>
    rw [List.foldl_cons, ih]
    simp [bumpS]
    omega

theorem buildS_eq (env : TzEnv) (tr : String) (now : ℤ) (l : List RawPoint) :
    l.foldl (insertPointS env tr now) [] =
      (keysOf (sampleKeyS env tr now) l).map
        (fun k => (k, sBucketFor env tr now l k)) := by
  have hstep : insertPointS env tr now =
      keyedStep (sampleKeyS env tr now) (fun k => ⟨k, [], [], 0⟩)
        (fun q => bumpS (numberOr0 q.rx_rate) (numberOr0 q.tx_rate)) := by
    funext m p
    exact insertPointS_eq_keyedStep env tr now m p
  rw [hstep]
  rw [show (List.foldl (keyedStep (sampleKeyS env tr now) (fun k => ⟨k, [], [], 0⟩)
      (fun q => bumpS (numberOr0 q.rx_rate) (numberOr0 q.tx_rate))) [] l) =
    keyedBuild (sampleKeyS env tr now) (fun k => ⟨k, [], [], 0⟩)
      (fun q => bumpS (numberOr0 q.rx_rate) (numberOr0 q.tx_rate)) l from rfl]
  rw [keyedBuild_eq]
  apply List.map_congr_left
  intro k _
  rw [foldl_bumpS]
  simp [sBucketFor]

theorem sortedAggregated_eq (env : TzEnv) (tr : String) (now : ℤ)
    (l : List RawPoint) :
    sortedAggregated env tr now l =
      jsSort sPointLe ((keysOf (sampleKeyS env tr now) l).map
        (fun k => mkSPoint (sBucketFor env tr now l k))) := by
  rw [sortedAggregated, buildS_eq, List.map_map]
  rfl

theorem mapFmt_ok_of_all {β α : Type} (ts : β → JDate) (f : β → α)
    (l : List β) (h : l.all (fun b => (ts b).isSome) = true) :
    mapFmt ts f l = Except.ok (l.map f) := by
  induction l with
  | nil => rfl
  | cons b t ih =>
    rw [List.all_cons, Bool.and_eq_true] at h
    obtain ⟨x, hx⟩ := Option.isSome_iff_exists.mp h.1
    rw [mapFmt, hx, ih h.2]
    rfl

theorem mapFmt_error_of_not_all {β α : Type} (ts : β → JDate) (f : β → α)
    (l : List β) (h : ¬ l.all (fun b => (ts b).isSome) = true) :
    mapFmt ts f l = Except.error () := by
  induction l with
  | nil => exact absurd rfl h
  | cons b t ih =>
    rw [List.all_cons, Bool.and_eq_true] at h
    rw [mapFmt]
    cases hb : ts b with
    | none => rfl
    | some x =>
      have ht : ¬ t.all (fun b => (ts b).isSome) = true := by
        intro hc
        exact h ⟨by rw [hb]; rfl, hc⟩
      rw [ih ht]
      rfl

theorem bucketsValidS_iff (env : TzEnv) (tr : String) (now : ℤ)
    (l : List RawPoint) :
    bucketsValidS env tr now l = true ↔
      ∀ k ∈ keysOf (sampleKeyS env tr now) l, k.isSome = true := by
  rw [bucketsValidS, buildS_eq, List.all_eq_true]
  constructor
  · intro h k hk
    exact h (k, sBucketFor env tr now l k) (List.mem_map.mpr ⟨k, hk, rfl⟩)
  · intro h e he
    obtain ⟨k, hk, rfl⟩ := List.mem_map.mp he
    exact h k hk

/-- aggregateDataByTime by cases: empty input short-circuits, an
Invalid-Date bucket throws, otherwise the truncated sorted series. -/
theorem aggregateDataByTime_eq (env : TzEnv) (tr : String) (now : ℤ)
    (rawData : List RawPoint) :
    aggregateDataByTime env tr now rawData =
      if rawData.isEmpty then Except.ok []
      else if bucketsValidS env tr now rawData then
        Except.ok (limitPoints tr (sortedAggregated env tr now rawData))
      else Except.error () := by
  rw [aggregateDataByTime]
  by_cases he : rawData.isEmpty = true
  · rw [if_pos he, if_pos he]
  · rw [if_neg he, if_neg he]
    by_cases hv : bucketsValidS env tr now rawData = true
    · rw [mapFmt_ok_of_all _ _ _ hv, if_pos hv]
      rfl
    · rw [mapFmt_error_of_not_all _ _ _ hv, if_neg hv]

/-! ### Characterization of aggregateCombinedServerData -/

/-- The (serverIndex, sample) pairs traversed by the two nested loops of
aggregateCombinedServerData, in traversal order. -/
def serverPairs (allServerData : List (List RawPoint)) : List (ℕ × RawPoint) :=
  allServerData.enum.flatMap (fun e => e.2.map (fun p => (e.1, p)))

/-- The bucket key of one (serverIndex, sample) pair. -/
def pairKey (env : TzEnv) (timeRange : String) (now : ℤ) (x : ℕ × RawPoint) :
    Option JDate :=
  sampleKeyS env timeRange now x.2

/-- Adding one pair to a combined bucket. -/
def pairAdd (x : ℕ × RawPoint) : CBucket → CBucket :=
  cbucketAdd x.1 (numberOr0 x.2.rx_rate) (numberOr0 x.2.tx_rate)

theorem insertPointC_eq_keyedStep (env : TzEnv) (tr : String) (now : ℤ)
    (x : ℕ × RawPoint) (m : List (JDate × CBucket)) :
    insertPointC env tr now x.1 m x.2 =
      keyedStep (pairKey env tr now) (fun k => ⟨k, []⟩) pairAdd m x := by
  by_cases h1 : (!x.2.timestamp.truthy || skipRate x.2.rx_rate ||
      skipRate x.2.tx_rate) = true
  · simp [insertPointC, pairKey, sampleKeyS, keyedStep, h1]
  · by_cases h2 : jdLt (normDate env x.2.timestamp)
        (some (getTimeRangeCutoff tr now)) = true
    · simp [insertPointC, pairKey, sampleKeyS, keyedStep, h1, h2]
    · simp only [insertPointC, pairKey, sampleKeyS, keyedStep, h1, h2, if_false,
        Bool.false_eq_true, if_neg]
      cases hm : mfind (getTimeBucketFunction tr
          (standardizeTimestamp (normDate env x.2.timestamp) tr)) m <;>
        simp [hm, pairAdd]

theorem foldl_servers (env : TzEnv) (tr : String) (now : ℤ)
    (L : List (ℕ × List RawPoint)) (m : List (JDate × CBucket)) :
    L.foldl (fun m e => if e.2.isEmpty then m
        else e.2.foldl (insertPointC env tr now e.1) m) m =
      (L.flatMap (fun e => e.2.map (fun p => (e.1, p)))).foldl
        (keyedStep (pairKey env tr now) (fun k => ⟨k, []⟩) pairAdd) m := by
  induction L generalizing m with
  | nil => rfl
  | cons e t ih =>
    rw [List.foldl_cons, List.flatMap_cons, List.foldl_append]
    have hinner : ∀ m0 : List (JDate × CBucket),
        e.2.foldl (insertPointC env tr now e.1) m0 =
          List.foldl (keyedStep (pairKey env tr now) (fun k => ⟨k, []⟩) pairAdd)
            m0 (e.2.map (fun p => (e.1, p))) := by
      intro m0
      rw [List.foldl_map]
      have hsteps : insertPointC env tr now e.1 =
          fun m1 p => keyedStep (pairKey env tr now) (fun k => ⟨k, []⟩) pairAdd
            m1 (e.1, p) := by
        funext m1 p
        exact insertPointC_eq_keyedStep env tr now (e.1, p) m1
      rw [hsteps]
    by_cases he : e.2.isEmpty
    · have he2 : e.2 = [] := List.isEmpty_iff.mp he
      rw [if_pos he, he2]
      simp only [List.map_nil, List.foldl_nil]
      exact ih m
    · rw [if_neg he, hinner m]
      exact ih _

theorem buildC_eq_keyedBuild (env : TzEnv) (tr : String) (now : ℤ)
    (allServerData : List (List RawPoint)) :
    buildC env tr now allServerData =
      keyedBuild (pairKey env tr now) (fun k => ⟨k, []⟩) pairAdd
        (serverPairs allServerData) := by
  rw [buildC, keyedBuild, serverPairs]
  exact foldl_servers env tr now allServerData.enum []

/-- The per-server value lists produced by one group of pairs. -/
def srvValsFor (h : List (ℕ × RawPoint)) : SrvVals :=
  ⟨h.map (fun x => numberOr0 x.2.rx_rate), h.map (fun x => numberOr0 x.2.tx_rate)⟩

/-- Direct form of the per-server association list inside one combined
bucket: contributing server indices in first-contribution order, each
paired with the values of its samples in the bucket. -/
def srvAssocFor (g : List (ℕ × RawPoint)) : List (ℕ × SrvVals) :=
  (firstDedup (g.map (fun x => x.1))).map
    (fun i => (i, srvValsFor (g.filter (fun x => decide (x.1 = i)))))

theorem cbucketAdd_eq_keyedStep (x : ℕ × RawPoint) (b : CBucket) :
    pairAdd x b = ⟨b.timestamp,
      keyedStep (fun y : ℕ × RawPoint => some y.1) (fun _ => (⟨[], []⟩ : SrvVals))
        (fun y => bumpSrv (numberOr0 y.2.rx_rate) (numberOr0 y.2.tx_rate))
        b.servers x⟩ := by
  cases hm : mfind x.1 b.servers <;> simp [pairAdd, cbucketAdd, keyedStep, hm]

theorem foldl_pairAdd (g : List (ℕ × RawPoint)) (b : CBucket) :
    g.foldl (fun b x => pairAdd x b) b =
      ⟨b.timestamp,
        g.foldl (keyedStep (fun y : ℕ × RawPoint => some y.1)
          (fun _ => (⟨[], []⟩ : SrvVals))
          (fun y => bumpSrv (numberOr0 y.2.rx_rate) (numberOr0 y.2.tx_rate)))
          b.servers⟩ := by
  induction g generalizing b with
  | nil => simp
  | cons x t ih =>
    rw [List.foldl_cons, List.foldl_cons, ih, cbucketAdd_eq_keyedStep]

theorem foldl_bumpSrv (h : List (ℕ × RawPoint)) (sv : SrvVals) :
    h.foldl (fun s x => bumpSrv (numberOr0 x.2.rx_rate) (numberOr0 x.2.tx_rate) s)
        sv =
      ⟨sv.rx_values ++ h.map (fun x => numberOr0 x.2.rx_rate),
       sv.tx_values ++ h.map (fun x => numberOr0 x.2.tx_rate)⟩ := by
  induction h generalizing sv with
  | nil => simp
  | cons x t ih =>
    rw [List.foldl_cons, ih]
    simp [bumpSrv]

theorem inner_build_eq (g : List (ℕ × RawPoint)) :
    g.foldl (keyedStep (fun y : ℕ × RawPoint => some y.1)
        (fun _ => (⟨[], []⟩ : SrvVals))
        (fun y => bumpSrv (numberOr0 y.2.rx_rate) (numberOr0 y.2.tx_rate))) [] =
      srvAssocFor g := by
  rw [show g.foldl (keyedStep (fun y : ℕ × RawPoint => some y.1)
      (fun _ => (⟨[], []⟩ : SrvVals))
      (fun y => bumpSrv (numberOr0 y.2.rx_rate) (numberOr0 y.2.tx_rate))) [] =
    keyedBuild (fun y : ℕ × RawPoint => some y.1) (fun _ => (⟨[], []⟩ : SrvVals))
      (fun y => bumpSrv (numberOr0 y.2.rx_rate) (numberOr0 y.2.tx_rate)) g from rfl]
  rw [keyedBuild_eq, srvAssocFor]
  have hkeys : keysOf (fun y : ℕ × RawPoint => some y.1) g =
      firstDedup (g.map (fun x => x.1)) := by
    rw [keysOf]
    congr 1
    have hc : (fun y : ℕ × RawPoint => some y.1) =
        some ∘ (fun x : ℕ × RawPoint => x.1) := rfl
    rw [hc]
    exact congrFun (List.filterMap_eq_map (fun x : ℕ × RawPoint => x.1)) g
  rw [hkeys]
  apply List.map_congr_left
  intro i _
  have hgrp : groupFor (fun y : ℕ × RawPoint => some y.1) g i =
      g.filter (fun x => decide (x.1 = i)) := by
    rw [groupFor]
    apply List.filter_congr
    intro x _
    simp
  rw [hgrp, foldl_bumpSrv]
  simp [srvValsFor]

theorem buildC_eq (env : TzEnv) (tr : String) (now : ℤ)
    (allServerData : List (List RawPoint)) :
    buildC env tr now allServerData =
      (keysOf (pairKey env tr now) (serverPairs allServerData)).map
        (fun k => (k, ⟨k, srvAssocFor
          (groupFor (pairKey env tr now) (serverPairs allServerData) k)⟩)) := by
  rw [buildC_eq_keyedBuild, keyedBuild_eq]
  apply List.map_congr_left
  intro k _
  rw [foldl_pairAdd, inner_build_eq]

theorem sortedCombined_eq (env : TzEnv) (tr : String) (now : ℤ)
    (allServerData : List (List RawPoint)) :
    sortedCombined env tr now allServerData =
      jsSort cPointLe (((keysOf (pairKey env tr now) (serverPairs allServerData)).map
        (fun k => mkCPoint ⟨k, srvAssocFor
          (groupFor (pairKey env tr now) (serverPairs allServerData) k)⟩)).filter
        (fun p => decide (0 < p.server_count))) := by
  rw [sortedCombined, buildC_eq, List.map_map]
  rfl

theorem bucketsValidC_iff (env : TzEnv) (tr : String) (now : ℤ)
    (allServerData : List (List RawPoint)) :
    bucketsValidC env tr now allServerData = true ↔
      ∀ k ∈ keysOf (pairKey env tr now) (serverPairs allServerData),
        k.isSome = true := by
  rw [bucketsValidC, buildC_eq, List.all_eq_true]
  constructor
  · intro h k hk
    exact h (k, ⟨k, srvAssocFor (groupFor (pairKey env tr now)
      (serverPairs allServerData) k)⟩) (List.mem_map.mpr ⟨k, hk, rfl⟩)
  · intro h e he
    obtain ⟨k, hk, rfl⟩ := List.mem_map.mp he
    exact h k hk

/-- aggregateCombinedServerData by cases: empty input short-circuits, an
Invalid-Date bucket throws (before the server_count filter), otherwise
the truncated sorted combined series. -/
theorem aggregateCombinedServerData_eq (env : TzEnv) (tr : String) (now : ℤ)
    (allServerData : List (List RawPoint)) :
    aggregateCombinedServerData env tr now allServerData =
      if allServerData.isEmpty then Except.ok []
      else if bucketsValidC env tr now allServerData then
        Except.ok (limitPoints tr (sortedCombined env tr now allServerData))
      else Except.error () := by
  rw [aggregateCombinedServerData]
  by_cases he : allServerData.isEmpty = true
  · rw [if_pos he, if_pos he]
  · rw [if_neg he, if_neg he]
    by_cases hv : bucketsValidC env tr now allServerData = true
    · rw [mapFmt_ok_of_all _ _ _ hv, if_pos hv]
      rfl
    · rw [mapFmt_error_of_not_all _ _ _ hv, if_neg hv]

/-- Arithmetic mean of a list of rationals (sum over length). -/
def qMean (l : List ℚ) : ℚ := l.sum / (l.length : ℚ)

theorem mkCPoint_srvAssocFor (k : JDate) (g : List (ℕ × RawPoint)) :
    mkCPoint ⟨k, srvAssocFor g⟩ =
      ⟨k,
       ((firstDedup (g.map (fun x => x.1))).map (fun i =>
         qMean ((g.filter (fun x => decide (x.1 = i))).map
           (fun x => numberOr0 x.2.rx_rate)))).sum,
       ((firstDedup (g.map (fun x => x.1))).map (fun i =>
         qMean ((g.filter (fun x => decide (x.1 = i))).map
           (fun x => numberOr0 x.2.tx_rate)))).sum,
       (firstDedup (g.map (fun x => x.1))).length⟩ := by
  have hpos : ∀ i ∈ firstDedup (g.map (fun x => x.1)),
      0 < (g.filter (fun x => decide (x.1 = i))).length := by
    intro i hi
    obtain ⟨x, hx, hxi⟩ := List.mem_map.mp (mem_firstDedup.mp hi)
    have hmem : x ∈ g.filter (fun x => decide (x.1 = i)) :=
      List.mem_filter.mpr ⟨hx, by simp [hxi]⟩
    exact List.length_pos.mpr (fun hnil => by rw [hnil] at hmem; simp at hmem)
  have hall : ((firstDedup (g.map (fun x => x.1))).map
      (fun i => (i, srvValsFor (g.filter (fun x => decide (x.1 = i)))))).filter
      (fun e => decide (0 < e.2.rx_values.length) &&
        decide (0 < e.2.tx_values.length)) =
      (firstDedup (g.map (fun x => x.1))).map
        (fun i => (i, srvValsFor (g.filter (fun x => decide (x.1 = i))))) := by
    rw [List.filter_eq_self]
    intro e he
    obtain ⟨i, hi, rfl⟩ := List.mem_map.mp he
    have := hpos i hi
    simp [srvValsFor, this]
  rw [mkCPoint, srvAssocFor]
  simp only [hall, List.map_map, List.length_map]
  congr 1

/-! ### Characterization of aggregateRealtimeData -/

/-- The bucket key assigned to a sample by the realtime pipeline (none
when the sample is skipped by the guard, the 15-minute filter, or has an
Invalid normalized date). -/
def rtKey (env : TzEnv) (startTime : ℤ) (p : RawPoint) : Option ℤ :=
  if !p.timestamp.truthy || skipRate p.rx_rate || skipRate p.tx_rate then none
  else
    let pointTime := normDate env p.timestamp
    if jdLt pointTime (some startTime) then none
    else
      match pointTime with
      | none => none
      | some t => some (t / 30000 * 30000)

theorem mapUpd_id_of_mfind_none {K V : Type} [DecidableEq K] {k : K} (f : V → V)
    {m : List (K × V)} (h : mfind k m = none) : mapUpd k f m = m := by
  induction m with
  | nil => rfl
  | cons e t ih =>
    rw [mfind] at h
    by_cases he : e.1 = k
    · rw [if_pos he] at h
      exact absurd h (by simp)
    · rw [if_neg he] at h
      simp only [mapUpd, List.map_cons, if_neg he]
      rw [show List.map (fun e => if e.1 = k then (e.1, f e.2) else e) t =
        mapUpd k f t from rfl, ih h]

theorem mfind_none_of_forall_ne {K V : Type} [DecidableEq K] (k : K)
    {m : List (K × V)} (h : ∀ e ∈ m, e.1 ≠ k) : mfind k m = none := by
  induction m with
  | nil => rfl
  | cons e t ih =>
    rw [mfind, if_neg (h e (List.mem_cons_self e t))]
    exact ih (fun x hx => h x (List.mem_cons_of_mem _ hx))

theorem rtAssign_eq (env : TzEnv) (s : ℤ) (m : List (ℤ × SBucket)) (p : RawPoint) :
    rtAssign env s m p =
      match rtKey env s p with
      | none => m
      | some k => mapUpd k (bumpS (numberOr0 p.rx_rate) (numberOr0 p.tx_rate)) m := by
  by_cases h1 : (!p.timestamp.truthy || skipRate p.rx_rate || skipRate p.tx_rate) = true
  · simp [rtAssign, rtKey, h1]
  · by_cases h2 : jdLt (normDate env p.timestamp) (some s) = true
    · simp [rtAssign, rtKey, h1, h2]
    · cases hd : normDate env p.timestamp with
      | none =>
        rw [hd] at h2
        simp [rtAssign, rtKey, h1, h2, hd]
      | some t =>
        rw [hd] at h2
        cases hm : mfind (t / 30000 * 30000) m with
        | some b => simp [rtAssign, rtKey, h1, h2, hd, hm]
        | none =>
          simp only [rtAssign, rtKey, h1, h2, hd, hm, Bool.false_eq_true, if_false,
            if_neg]
          rw [mapUpd_id_of_mfind_none
            (bumpS (numberOr0 p.rx_rate) (numberOr0 p.tx_rate)) hm]

theorem foldl_rtAssign (env : TzEnv) (s : ℤ) (l : List RawPoint)
    (m : List (ℤ × SBucket)) :
    l.foldl (rtAssign env s) m =
      m.map (fun e => (e.1,
        (l.filter (fun p => decide (rtKey env s p = some e.1))).foldl
          (fun b q => bumpS (numberOr0 q.rx_rate) (numberOr0 q.tx_rate) b) e.2)) := by
  induction l generalizing m with
  | nil => simp
  | cons p t ih =>
    rw [List.foldl_cons, rtAssign_eq]
    cases hk : rtKey env s p with
    | none =>
      rw [ih]
      apply List.map_congr_left
      intro e _
      rw [List.filter_cons, if_neg (by simp [hk])]
    | some k =>
      rw [ih]
      simp only [mapUpd, List.map_map]
      apply List.map_congr_left
      intro e _
      by_cases he : e.1 = k
      · simp only [Function.comp, if_pos he]
        rw [List.filter_cons, if_pos (by simp [hk, he])]
        rw [List.foldl_cons]
      · simp only [Function.comp, if_neg he]
        rw [List.filter_cons, if_neg (by simp [hk]; exact fun hh => he hh.symm)]

theorem rtGridKey_add (s : ℤ) (i : ℕ) :
    rtGridKey s i = s / 30000 * 30000 + 30000 * (i : ℤ) := by
  rw [rtGridKey, Int.add_mul_ediv_right _ _ (by norm_num : (30000 : ℤ) ≠ 0)]
  ring

theorem foldl_mapSet_range {V : Type} (key : ℕ → ℤ) (val : ℕ → V)
    (hinj : ∀ i j, key i = key j → i = j) (n : ℕ) :
    (List.range n).foldl (fun m i => mapSet (key i) (val i) m) [] =
      (List.range n).map (fun i => (key i, val i)) := by
  induction n with
  | zero => rfl
  | succ n ih =>
    rw [List.range_succ, List.foldl_append, ih, List.map_append, List.foldl_cons,
      List.foldl_nil]
    have hnone : mfind (key n) ((List.range n).map (fun i => (key i, val i))) =
        none := by
      apply mfind_none_of_forall_ne
      intro e he
      obtain ⟨i, hi, rfl⟩ := List.mem_map.mp he
      have hlt : i < n := List.mem_range.mp hi
      intro hke
      have := hinj i n hke
      omega
    simp only [mapSet, hnone]
    simp

theorem rtInit_eq (s : ℤ) :
    rtInit s = (List.range 30).map
      (fun i => (rtGridKey s i, ⟨some (rtGridKey s i), [], [], 0⟩)) := by
  rw [rtInit]
  exact foldl_mapSet_range (rtGridKey s) _
    (fun i j h => by
      rw [rtGridKey_add, rtGridKey_add] at h
      omega) 30

/-- The samples of the input landing in a given realtime bucket. -/
def rtMatch (env : TzEnv) (startTime : ℤ) (l : List RawPoint) (k : ℤ) :
    List RawPoint :=
  l.filter (fun p => decide (rtKey env startTime p = some k))

theorem aggregateRealtimeData_eq (env : TzEnv) (now : ℤ) (l : List RawPoint)
    (h : l ≠ []) :
    aggregateRealtimeData env now l =
      (List.range 30).map (fun i =>
        mkRPoint ⟨some (rtGridKey (now - 900000) i),
          (rtMatch env (now - 900000) l (rtGridKey (now - 900000) i)).map
            (fun p => numberOr0 p.rx_rate),
          (rtMatch env (now - 900000) l (rtGridKey (now - 900000) i)).map
            (fun p => numberOr0 p.tx_rate),
          (rtMatch env (now - 900000) l (rtGridKey (now - 900000) i)).length⟩) := by
  rw [aggregateRealtimeData, if_neg (by simpa [List.isEmpty_iff] using h)]
  show jsSort rPointLe ((l.foldl (rtAssign env (now - 900000))
    (rtInit (now - 900000))).map (fun e => mkRPoint e.2)) = _
  rw [rtInit_eq, foldl_rtAssign, List.map_map, List.map_map]
  have hentry : ∀ i ∈ List.range 30,
      (((fun e : ℤ × SBucket => mkRPoint e.2) ∘
        (fun e : ℤ × SBucket => (e.1,
          (l.filter (fun p => decide (rtKey env (now - 900000) p = some e.1))).foldl
            (fun b q => bumpS (numberOr0 q.rx_rate) (numberOr0 q.tx_rate) b) e.2))) ∘
          (fun i => (rtGridKey (now - 900000) i,
            ⟨some (rtGridKey (now - 900000) i), [], [], 0⟩))) i =
      mkRPoint ⟨some (rtGridKey (now - 900000) i),
        (rtMatch env (now - 900000) l (rtGridKey (now - 900000) i)).map
          (fun p => numberOr0 p.rx_rate),
        (rtMatch env (now - 900000) l (rtGridKey (now - 900000) i)).map
          (fun p => numberOr0 p.tx_rate),
        (rtMatch env (now - 900000) l (rtGridKey (now - 900000) i)).length⟩ := by
    intro i _
    simp only [Function.comp, foldl_bumpS, rtMatch]
    simp
  rw [List.map_congr_left hentry]
  apply jsSort_eq_self
  rw [List.pairwise_map]
  have hrange : (List.range 30).Pairwise (fun i j => i < j) :=
    List.pairwise_lt_range 30
  refine hrange.imp ?_
  intro i j hij
  simp only [mkRPoint, rPointLe, jdLeB]
  have : rtGridKey (now - 900000) i ≤ rtGridKey (now - 900000) j := by
    rw [rtGridKey_add, rtGridKey_add]
    omega
  simpa using this

/-! ### Shared helpers for the claim theorems -/

/-- A concrete environment for closed evaluations: both external string
parsers fail on every input (Invalid Date) and the timezone shift is the
identity (a UTC browser). -/
def cxEnv : TzEnv := ⟨fun _ => none, fun _ => none, id⟩

/-- A valid sample at instant 360000000 with rates 10/10. -/
def cxValid : RawPoint := ⟨TVal.date (some 360000000), JVal.num 10, JVal.num 10⟩

/-- A sample at the same instant whose rx_rate is a non-numeric string. -/
def cxStrRate : RawPoint := ⟨TVal.date (some 360000000), JVal.str "abc", JVal.num 4⟩

/-- A sample at the same instant whose rx_rate is null. -/
def cxNullRate : RawPoint := ⟨TVal.date (some 360000000), JVal.null, JVal.num 4⟩

/-- A valid sample older than the 1h cutoff for now = 360000000. -/
def cxOld : RawPoint := ⟨TVal.date (some 300000000), JVal.num 1, JVal.num 1⟩

/-- A valid sample with an unparseable (but truthy) string timestamp. -/
def cxGarbage : RawPoint := ⟨TVal.str "x", JVal.num 1, JVal.num 1⟩

/-- Server A sample for combined scenarios. -/
def cxA : RawPoint := ⟨TVal.date (some 360000000), JVal.num 5, JVal.num 1⟩

/-- Server B sample for combined scenarios. -/
def cxB : RawPoint := ⟨TVal.date (some 360000000), JVal.num 7, JVal.num 2⟩

/-- A valid sample inside the realtime window for now = 915000. -/
def cxRT : RawPoint := ⟨TVal.date (some 100000), JVal.num 2, JVal.num 2⟩

/-- A valid sample one minute before cxValid, still inside the 1h
cutoff for now = 360000000. -/
def cxEarly : RawPoint := ⟨TVal.date (some 359940000), JVal.num 2, JVal.num 6⟩

theorem getTargetDataPoints_eq (tr : String) : getTargetDataPoints tr = 60 := by
  rw [getTargetDataPoints]
  split_ifs <;> rfl

theorem limitPoints_eq_drop {α : Type} (tr : String) (l : List α) :
    limitPoints tr l = l.drop (l.length - 60) := by
  rw [limitPoints, getTargetDataPoints_eq]
  by_cases h : l.length > 60
  · rw [if_pos h]
  · rw [if_neg h]
    have h0 : l.length - 60 = 0 := by omega
    rw [h0, List.drop_zero]

theorem length_limitPoints {α : Type} (tr : String) (l : List α) :
    (limitPoints tr l).length ≤ 60 := by
  rw [limitPoints_eq_drop, List.length_drop]
  omega

/-- Removing a sample the per-sample loop body ignores does not change the
output of aggregateDataByTime. -/
theorem aggregateDataByTime_skip (env : TzEnv) (tr : String) (now : ℤ)
    (s : RawPoint) (hskip : ∀ m, insertPointS env tr now m s = m)
    (l1 l2 : List RawPoint) :
    aggregateDataByTime env tr now (l1 ++ s :: l2) =
      aggregateDataByTime env tr now (l1 ++ l2) := by
  have hfold : (l1 ++ s :: l2).foldl (insertPointS env tr now) [] =
      (l1 ++ l2).foldl (insertPointS env tr now) [] := by
    rw [List.foldl_append, List.foldl_cons, hskip, ← List.foldl_append]
  have hvs : bucketsValidS env tr now (l1 ++ s :: l2) =
      bucketsValidS env tr now (l1 ++ l2) := by
    rw [bucketsValidS, bucketsValidS, hfold]
  have hsa : sortedAggregated env tr now (l1 ++ s :: l2) =
      sortedAggregated env tr now (l1 ++ l2) := by
    rw [sortedAggregated, sortedAggregated, hfold]
  rw [aggregateDataByTime_eq, aggregateDataByTime_eq, hvs, hsa]
  have hne : (l1 ++ s :: l2).isEmpty = false := by simp
  rw [hne]
  simp only [Bool.false_eq_true, if_false]
  by_cases h2 : (l1 ++ l2).isEmpty = true
  · rw [if_pos h2]
    have h1n : l1 = [] := by
      cases l1 with
      | nil => rfl
      | cons a t => simp at h2
    subst h1n
    have h2n : l2 = [] := by simpa [List.isEmpty_iff] using h2
    subst h2n
    rw [if_pos (show bucketsValidS env tr now ([] ++ []) = true from rfl)]
    rw [sortedAggregated]
    simp [limitPoints, jsSort_nil]
  · rw [if_neg h2]

/-! ### Claim C3 -/

/-- Claim C3 (amended): normalizeTimestamp returns null exactly when the
raw value is JS-falsy (empty string, the number 0, null, undefined, NaN);
for every truthy input — parseable or not — it returns a Date (an Invalid
Date when parsing fails), and it is a total function, modelling that no
exception escapes its try/catch boundary. -/
theorem C3_theorem (env : TzEnv) (raw : TVal) :
    normalizeTimestamp env raw = none ↔ raw.truthy = false := by
  rw [normalizeTimestamp]
  by_cases h : raw.truthy <;> simp [h]

/-! ### Claim C1 -/

/-- Claim C1 (amended): a sample whose rx_rate or tx_rate is JS-falsy and
not the number 0 (missing field, null, NaN, false, empty string) is
skipped entirely by aggregateDataByTime — removing it from the input
changes nothing, so it contributes no value to any bucket and a bucket
holding other valid samples has its means computed from those samples
alone.  (A truthy non-numeric rate, such as a non-empty non-numeric
string, is instead kept and coerced to 0, per the counterexample.) -/
theorem C1_theorem (env : TzEnv) (tr : String) (now : ℤ) (s : RawPoint)
    (h : skipRate s.rx_rate = true ∨ skipRate s.tx_rate = true)
    (l1 l2 : List RawPoint) :
    aggregateDataByTime env tr now (l1 ++ s :: l2) =
      aggregateDataByTime env tr now (l1 ++ l2) := by
  apply aggregateDataByTime_skip
  intro m
  rw [insertPointS, if_pos]
  rcases h with h | h <;> simp [h]

/-! ### Claim C8 -/

/-- Claim C8: the cutoff is now minus the window duration (1h, 6h, 12h,
24h, 3d, 7d in milliseconds), any unknown label falls back to one hour,
and a sample whose normalized timestamp is strictly earlier than the
cutoff is excluded before bucketing: removing it from the input leaves
the output of aggregateDataByTime unchanged, so no output bucket derives
from it. -/
theorem C8_theorem :
    (∀ now : ℤ,
      getTimeRangeCutoff ("1h") now = now - 3600000 ∧
      getTimeRangeCutoff ("6h") now = now - 6 * 3600000 ∧
      getTimeRangeCutoff ("12h") now = now - 12 * 3600000 ∧
      getTimeRangeCutoff ("1d") now = now - 24 * 3600000 ∧
      getTimeRangeCutoff ("3d") now = now - 3 * 86400000 ∧
      getTimeRangeCutoff ("1w") now = now - 7 * 86400000) ∧
    (∀ (tr : String) (now : ℤ),
      tr ∉ [("1h" : String), "6h", "12h", "1d", "3d", "1w"] →
      getTimeRangeCutoff tr now = now - 3600000) ∧
    (∀ (env : TzEnv) (tr : String) (now t : ℤ) (s : RawPoint)
      (l1 l2 : List RawPoint),
      normDate env s.timestamp = some t →
      t < getTimeRangeCutoff tr now →
      aggregateDataByTime env tr now (l1 ++ s :: l2) =
        aggregateDataByTime env tr now (l1 ++ l2)) := by
  refine ⟨fun now => ⟨by rw [getTimeRangeCutoff, if_pos rfl],
      by rw [getTimeRangeCutoff, if_neg (by decide), if_pos rfl]; norm_num,
      by rw [getTimeRangeCutoff, if_neg (by decide), if_neg (by decide),
        if_pos rfl]; norm_num,
      by rw [getTimeRangeCutoff, if_neg (by decide), if_neg (by decide),
        if_neg (by decide), if_pos rfl]; norm_num,
      by rw [getTimeRangeCutoff, if_neg (by decide), if_neg (by decide),
        if_neg (by decide), if_neg (by decide), if_pos rfl]; norm_num,
      by rw [getTimeRangeCutoff, if_neg (by decide), if_neg (by decide),
        if_neg (by decide), if_neg (by decide), if_neg (by decide),
        if_pos rfl]; norm_num⟩,
    ?_, ?_⟩
  · intro tr now h
    have h1 : ¬ tr = "1h" := fun hh => h (by rw [hh]; simp)
    have h2 : ¬ tr = "6h" := fun hh => h (by rw [hh]; simp)
    have h3 : ¬ tr = "12h" := fun hh => h (by rw [hh]; simp)
    have h4 : ¬ tr = "1d" := fun hh => h (by rw [hh]; simp)
    have h5 : ¬ tr = "3d" := fun hh => h (by rw [hh]; simp)
    have h6 : ¬ tr = "1w" := fun hh => h (by rw [hh]; simp)
    rw [getTimeRangeCutoff, if_neg h1, if_neg h2, if_neg h3, if_neg h4,
      if_neg h5, if_neg h6]
  · intro env tr now t s l1 l2 hnorm hlt
    apply aggregateDataByTime_skip
    intro m
    rw [insertPointS]
    by_cases hg : (!s.timestamp.truthy || skipRate s.rx_rate ||
        skipRate s.tx_rate) = true
    · rw [if_pos hg]
    · rw [if_neg hg, if_pos]
      simp [jdLt, hnorm, hlt]

/-! ### Claim C6 -/

/-- Claim C6: every defined (indeed every) window label has target point
count 60; every series returned by aggregateDataByTime (i.e. on the
non-throwing path) is exactly the trailing portion of its sorted bucket
list obtained by dropping all but the last 60 points (a no-op when at
most 60 exist), and likewise for aggregateCombinedServerData;
consequently neither returned series ever exceeds 60 points. -/
theorem C6_theorem (env : TzEnv) (tr : String) (now : ℤ)
    (rawData : List RawPoint) (allServerData : List (List RawPoint)) :
    getTargetDataPoints tr = 60 ∧
    (∀ out : List SPoint,
      aggregateDataByTime env tr now rawData = Except.ok out →
      out = (if rawData.isEmpty then [] else
        (sortedAggregated env tr now rawData).drop
          ((sortedAggregated env tr now rawData).length - 60)) ∧
      out.length ≤ 60) ∧
    (∀ out : List CPoint,
      aggregateCombinedServerData env tr now allServerData = Except.ok out →
      out = (if allServerData.isEmpty then [] else
        (sortedCombined env tr now allServerData).drop
          ((sortedCombined env tr now allServerData).length - 60)) ∧
      out.length ≤ 60) := by
  refine ⟨getTargetDataPoints_eq tr, ?_, ?_⟩
  · intro out hok
    rw [aggregateDataByTime_eq] at hok
    by_cases h : rawData.isEmpty = true
    · rw [if_pos h] at hok
      injection hok with hh
      subst hh
      rw [if_pos h]
      exact ⟨rfl, by simp⟩
    · rw [if_neg h] at hok
      by_cases hv : bucketsValidS env tr now rawData = true
      · rw [if_pos hv] at hok
        injection hok with hh
        subst hh
        rw [if_neg h]
        exact ⟨by rw [limitPoints_eq_drop], by
          rw [limitPoints_eq_drop, List.length_drop]; omega⟩
      · rw [if_neg hv] at hok
        cases hok
  · intro out hok
    rw [aggregateCombinedServerData_eq] at hok
    by_cases h : allServerData.isEmpty = true
    · rw [if_pos h] at hok
      injection hok with hh
      subst hh
      rw [if_pos h]
      exact ⟨rfl, by simp⟩
    · rw [if_neg h] at hok
      by_cases hv : bucketsValidC env tr now allServerData = true
      · rw [if_pos hv] at hok
        injection hok with hh
        subst hh
        rw [if_neg h]
        exact ⟨by rw [limitPoints_eq_drop], by
          rw [limitPoints_eq_drop, List.length_drop]; omega⟩
      · rw [if_neg hv] at hok
        cases hok

/-! ### Claim C7 -/

/-- Claim C7 (amended): for 1h/6h/12h the bucket-key function is a true
fixed-width floor: it maps an instant to the start of its containing
1/6/12-minute window (these widths divide the hour, so the calendar-hour
anchoring is immaterial), hence any two instants in the same window share
a key; for 1d the 24-minute windows restart at each hour boundary (the
final window of an hour is truncated to 12 minutes) and two instants in
the same calendar hour with the same minute-of-hour divided by 24 share a
key; for 3d/1w the key depends only on the calendar hour — any two
instants in the same calendar hour share a key — but the hour-to-key
mapping floor(floor(h/1.2)*1.2) (resp. 2.8) is not a fixed-width floor:
two instants in the same nominal 1.2-hour window can receive different
keys, per the counterexample. -/
theorem C7_theorem :
    (∀ t : ℤ, getTimeBucketFunction ("1h") (some t) =
      some (60000 * (t / 60000))) ∧
    (∀ t : ℤ, getTimeBucketFunction ("6h") (some t) =
      some (360000 * (t / 360000))) ∧
    (∀ t : ℤ, getTimeBucketFunction ("12h") (some t) =
      some (720000 * (t / 720000))) ∧
    (∀ t u : ℤ, t / 3600000 = u / 3600000 →
      t / 60000 % 60 / 24 = u / 60000 % 60 / 24 →
      getTimeBucketFunction ("1d") (some t) =
        getTimeBucketFunction ("1d") (some u)) ∧
    (∀ t u : ℤ, t / 3600000 = u / 3600000 →
      getTimeBucketFunction ("3d") (some t) =
        getTimeBucketFunction ("3d") (some u)) ∧
    (∀ t u : ℤ, t / 3600000 = u / 3600000 →
      getTimeBucketFunction ("1w") (some t) =
        getTimeBucketFunction ("1w") (some u)) := by
  refine ⟨?_, ?_, ?_, ?_, ?_, ?_⟩
  · intro t
    show some (t - t % 60000) = some (60000 * (t / 60000))
    congr 1
    omega
  · intro t
    show some (hourStartMs t + minutesOf t / 6 * 6 * 60000) =
      some (360000 * (t / 360000))
    rw [hourStartMs, minutesOf]
    congr 1
    omega
  · intro t
    show some (hourStartMs t + minutesOf t / 12 * 12 * 60000) =
      some (720000 * (t / 720000))
    rw [hourStartMs, minutesOf]
    congr 1
    omega
  · intro t u h1 h2
    show some (hourStartMs t + minutesOf t / 24 * 24 * 60000) =
      some (hourStartMs u + minutesOf u / 24 * 24 * 60000)
    rw [hourStartMs, hourStartMs, minutesOf, minutesOf]
    congr 1
    omega
  · intro t u h1
    have hh : hoursOf t = hoursOf u := by rw [hoursOf, hoursOf, h1]
    have hd : dayStartMs t = dayStartMs u := by
      rw [dayStartMs, dayStartMs]
      omega
    show some (dayStartMs t + (bucketHours3d (hoursOf t).toNat : ℤ) * 3600000) =
      some (dayStartMs u + (bucketHours3d (hoursOf u).toNat : ℤ) * 3600000)
    rw [hh, hd]
  · intro t u h1
    have hh : hoursOf t = hoursOf u := by rw [hoursOf, hoursOf, h1]
    have hd : dayStartMs t = dayStartMs u := by
      rw [dayStartMs, dayStartMs]
      omega
    show some (dayStartMs t + (bucketHours1w (hoursOf t).toNat : ℤ) * 3600000) =
      some (dayStartMs u + (bucketHours1w (hoursOf u).toNat : ℤ) * 3600000)
    rw [hh, hd]

/-! ### Claim C4 -/

/-- Claim C4 (amended): for every NON-EMPTY input sample array — even one
all of whose samples fall outside the last 15 minutes — the realtime
aggregator pre-creates all 30 buckets at exact 30-second spacing starting
at the grid-aligned window start and returns exactly 30 points for that
array, in ascending key order; a bucket that received no samples appears
explicitly as an empty/zero point (total_throughput 0 at data_points 0)
rather than being dropped.  An EMPTY input array, however, short-circuits
to [] and does not produce the 30 buckets (see the counterexample). -/
theorem C4_theorem (env : TzEnv) (now : ℤ) (rawData : List RawPoint)
    (h : rawData ≠ []) :
    (aggregateRealtimeData env now rawData).length = 30 ∧
    (aggregateRealtimeData env now rawData).map RPoint.timestamp =
      (List.range 30).map
        (fun (i : ℕ) => some ((now - 900000) / 30000 * 30000 + 30000 * (i : ℤ))) ∧
    ∀ i ∈ List.range 30,
      rtMatch env (now - 900000) rawData (rtGridKey (now - 900000) i) = [] →
      (⟨some (rtGridKey (now - 900000) i), 0, 0⟩ : RPoint) ∈
        aggregateRealtimeData env now rawData := by
  rw [aggregateRealtimeData_eq env now rawData h]
  refine ⟨by simp, ?_, ?_⟩
  · rw [List.map_map]
    apply List.map_congr_left
    intro i _
    simp only [Function.comp, mkRPoint, rtGridKey_add]
  · intro i hi hmatch
    apply List.mem_map.mpr
    refine ⟨i, hi, ?_⟩
    rw [hmatch]
    simp [mkRPoint]

/-! ### Claim C10 -/

/-- Claim C10: a sample whose normalized timestamp is valid and at or
after the window start (now minus 15 minutes) but whose 30-second bucket
key is not among the 30 pre-created keys — for example one arriving in
the partial interval after the last pre-created bucket — is silently
discarded by aggregateRealtimeData: removing it from a still non-empty
input leaves the output unchanged, so it contributes to no output
point. -/
theorem C10_theorem (env : TzEnv) (now : ℤ) (s : RawPoint) (t : ℤ)
    (hnorm : normDate env s.timestamp = some t)
    (hge : now - 900000 ≤ t)
    (hkey : ∀ i ∈ List.range 30, t / 30000 * 30000 ≠ rtGridKey (now - 900000) i)
    (l1 l2 : List RawPoint) (hne : l1 ++ l2 ≠ []) :
    aggregateRealtimeData env now (l1 ++ s :: l2) =
      aggregateRealtimeData env now (l1 ++ l2) := by
  have hne2 : l1 ++ s :: l2 ≠ [] := by simp
  rw [aggregateRealtimeData_eq env now _ hne2,
    aggregateRealtimeData_eq env now _ hne]
  apply List.map_congr_left
  intro i hi
  have hs : ¬ rtKey env (now - 900000) s = some (rtGridKey (now - 900000) i) := by
    rw [rtKey]
    by_cases hg : (!s.timestamp.truthy || skipRate s.rx_rate ||
        skipRate s.tx_rate) = true
    · rw [if_pos hg]
      simp
    · rw [if_neg hg]
      simp only [hnorm]
      have hlt : jdLt (some t) (some (now - 900000)) = false := by
        simp only [jdLt, decide_eq_false_iff_not]
        omega
      rw [hlt]
      simp only [Bool.false_eq_true, if_false]
      simp only [Option.some.injEq]
      exact hkey i hi
  have hmatch : rtMatch env (now - 900000) (l1 ++ s :: l2)
        (rtGridKey (now - 900000) i) =
      rtMatch env (now - 900000) (l1 ++ l2) (rtGridKey (now - 900000) i) := by
    rw [rtMatch, rtMatch, List.filter_append, List.filter_append,
      List.filter_cons, if_neg (by simpa using hs)]
  rw [hmatch]

/-! ### Strict-ordering machinery for the sorted outputs -/

theorem jsSort_pairwise_le {α : Type} (kf : α → JDate) (le : α → α → Bool)
    (hle : ∀ a b, le a b = jdLeB (kf a) (kf b)) (P : List α)
    (hval : ∀ a ∈ P, (kf a).isSome = true) :
    (jsSort le P).Pairwise (fun a b => jdLeB (kf a) (kf b) = true) := by
  have hcongr : jsSort le P =
      jsSort (fun a b => decide ((kf a).getD 0 ≤ (kf b).getD 0)) P := by
    apply jsSort_congr
    intro a ha b hb
    obtain ⟨x, hx⟩ := Option.isSome_iff_exists.mp (hval a ha)
    obtain ⟨y, hy⟩ := Option.isSome_iff_exists.mp (hval b hb)
    rw [hle, hx, hy]
    simp [jdLeB]
  rw [hcongr]
  have hs := pairwise_jsSort (fun a b => decide ((kf a).getD 0 ≤ (kf b).getD 0))
    (fun a b => by
      rcases le_total ((kf a).getD 0) ((kf b).getD 0) with h | h
      · exact Or.inl (by simpa using h)
      · exact Or.inr (by simpa using h))
    (fun a b c h1 h2 => by
      simp only [decide_eq_true_eq] at h1 h2 ⊢
      omega)
    P
  refine hs.imp_of_mem ?_
  intro a b ha hb hab
  have hperm := jsSort_perm (fun a b => decide ((kf a).getD 0 ≤ (kf b).getD 0)) P
  obtain ⟨x, hx⟩ := Option.isSome_iff_exists.mp (hval a (hperm.mem_iff.mp ha))
  obtain ⟨y, hy⟩ := Option.isSome_iff_exists.mp (hval b (hperm.mem_iff.mp hb))
  rw [hx, hy] at hab ⊢
  simp only [Option.getD_some, decide_eq_true_eq] at hab
  simpa [jdLeB] using hab

theorem pairwise_strict {α : Type} (kf : α → JDate) {P : List α}
    (hval : ∀ a ∈ P, (kf a).isSome = true)
    (hnd : (P.map kf).Nodup)
    (hs : P.Pairwise (fun a b => jdLeB (kf a) (kf b) = true)) :
    P.Pairwise (fun a b => jdLt (kf a) (kf b) = true) := by
  have hne : P.Pairwise (fun a b => kf a ≠ kf b) := List.pairwise_map.mp hnd
  refine (hs.and hne).imp_of_mem ?_
  intro a b ha hb hab
  obtain ⟨h1, h2⟩ := hab
  obtain ⟨x, hx⟩ := Option.isSome_iff_exists.mp (hval a ha)
  obtain ⟨y, hy⟩ := Option.isSome_iff_exists.mp (hval b hb)
  rw [hx, hy] at h1 h2 ⊢
  simp only [jdLeB, decide_eq_true_eq] at h1
  simp only [jdLt, decide_eq_true_eq]
  have hxy : x ≠ y := fun hh => h2 (by rw [hh])
  omega

/-- A key produced by the shared pipeline is a valid Date whenever the
sample's normalized timestamp is valid. -/
theorem sampleKeyS_isSome (env : TzEnv) (tr : String) (now : ℤ) {p : RawPoint}
    {k : JDate} (hk : sampleKeyS env tr now p = some k)
    (hv : p.timestamp.truthy = true → (normDate env p.timestamp).isSome = true) :
    k.isSome = true := by
  rw [sampleKeyS] at hk
  by_cases h1 : (!p.timestamp.truthy || skipRate p.rx_rate ||
      skipRate p.tx_rate) = true
  · rw [if_pos h1] at hk
    cases hk
  · rw [if_neg h1] at hk
    by_cases h2 : jdLt (normDate env p.timestamp)
        (some (getTimeRangeCutoff tr now)) = true
    · rw [if_pos h2] at hk
      cases hk
    · rw [if_neg h2] at hk
      have ht : p.timestamp.truthy = true := by
        by_contra hc
        have hf : p.timestamp.truthy = false := by
          cases hb : p.timestamp.truthy
          · rfl
          · exact absurd hb hc
        exact h1 (by rw [hf]; rfl)
      obtain ⟨tval, htv⟩ := Option.isSome_iff_exists.mp (hv ht)
      have hkk : getTimeBucketFunction tr
          (standardizeTimestamp (normDate env p.timestamp) tr) = k :=
        Option.some.inj hk
      rw [← hkk, htv]
      simp [standardizeTimestamp, getTimeBucketFunction]

/-- Every pair traversed by the combined aggregator carries a sample of
one of the input arrays. -/
theorem mem_serverPairs {A : List (List RawPoint)} {x : ℕ × RawPoint}
    (hx : x ∈ serverPairs A) : ∃ sd ∈ A, x.2 ∈ sd := by
  rw [serverPairs] at hx
  obtain ⟨e, he, hx2⟩ := List.mem_flatMap.mp hx
  obtain ⟨p, hp, rfl⟩ := List.mem_map.mp hx2
  obtain ⟨i, a⟩ := e
  obtain ⟨hlt, ha⟩ := List.mem_enum he
  exact ⟨a, ha ▸ List.getElem_mem hlt, hp⟩

/-! ### Claim C5 -/

/-- Claim C5: every series the aggregators actually return is strictly
ascending by timestamp (in particular without duplicate timestamps), for
both aggregateDataByTime and aggregateCombinedServerData.  An input
whose samples would create an Invalid-Date bucket never returns a series
at all: building its output point throws (RangeError in format), which
the Except error models. -/
theorem C5_theorem (env : TzEnv) (tr : String) (now : ℤ) :
    (∀ (rawData : List RawPoint) (out : List SPoint),
      aggregateDataByTime env tr now rawData = Except.ok out →
      out.Pairwise (fun a b => jdLt a.timestamp b.timestamp = true)) ∧
    (∀ (allServerData : List (List RawPoint)) (out : List CPoint),
      aggregateCombinedServerData env tr now allServerData = Except.ok out →
      out.Pairwise (fun a b => jdLt a.timestamp b.timestamp = true)) := by
  constructor
  · intro l out hok
    rw [aggregateDataByTime_eq] at hok
    by_cases he : l.isEmpty = true
    · rw [if_pos he] at hok
      injection hok with hh
      subst hh
      exact List.Pairwise.nil
    · rw [if_neg he] at hok
      by_cases hv : bucketsValidS env tr now l = true
      swap
      · rw [if_neg hv] at hok
        cases hok
      rw [if_pos hv] at hok
      injection hok with hh
      subst hh
      have hkval := (bucketsValidS_iff env tr now l).mp hv
      rw [sortedAggregated_eq, limitPoints_eq_drop]
      set P := (keysOf (sampleKeyS env tr now) l).map
        (fun k => mkSPoint (sBucketFor env tr now l k)) with hPdef
      have hvalP : ∀ a ∈ P, a.timestamp.isSome = true := by
        intro a ha
        obtain ⟨k, hk, rfl⟩ := List.mem_map.mp ha
        show k.isSome = true
        exact hkval k hk
      have hndP : (P.map SPoint.timestamp).Nodup := by
        have h1 : P.map SPoint.timestamp =
            (keysOf (sampleKeyS env tr now) l).map (fun k => k) := by
          rw [hPdef, List.map_map]
          rfl
        rw [h1, List.map_id']
        exact nodup_firstDedup _
      have hsorted := jsSort_pairwise_le SPoint.timestamp sPointLe
        (fun a b => rfl) P hvalP
      have hvalS : ∀ a ∈ jsSort sPointLe P, a.timestamp.isSome = true :=
        fun a ha => hvalP a ((jsSort_perm _ _).mem_iff.mp ha)
      have hndS : ((jsSort sPointLe P).map SPoint.timestamp).Nodup :=
        ((jsSort_perm sPointLe P).map SPoint.timestamp).symm.nodup hndP
      have hstrict := pairwise_strict SPoint.timestamp hvalS hndS hsorted
      exact List.Pairwise.sublist (List.drop_sublist _ _) hstrict
  · intro A out hok
    rw [aggregateCombinedServerData_eq] at hok
    by_cases he : A.isEmpty = true
    · rw [if_pos he] at hok
      injection hok with hh
      subst hh
      exact List.Pairwise.nil
    · rw [if_neg he] at hok
      by_cases hv : bucketsValidC env tr now A = true
      swap
      · rw [if_neg hv] at hok
        cases hok
      rw [if_pos hv] at hok
      injection hok with hh
      subst hh
      have hkval := (bucketsValidC_iff env tr now A).mp hv
      rw [sortedCombined_eq, limitPoints_eq_drop]
      set Q := (((keysOf (pairKey env tr now) (serverPairs A)).map
        (fun k => mkCPoint ⟨k, srvAssocFor
          (groupFor (pairKey env tr now) (serverPairs A) k)⟩)).filter
        (fun p => decide (0 < p.server_count))) with hQdef
      have hvalQ : ∀ a ∈ Q, a.timestamp.isSome = true := by
        intro a ha
        obtain ⟨k, hk, rfl⟩ := List.mem_map.mp (List.mem_filter.mp ha).1
        show k.isSome = true
        exact hkval k hk
      have hndQ : (Q.map CPoint.timestamp).Nodup := by
        have hsub : (Q.map CPoint.timestamp).Sublist
            (((keysOf (pairKey env tr now) (serverPairs A)).map
              (fun k => mkCPoint ⟨k, srvAssocFor
                (groupFor (pairKey env tr now) (serverPairs A) k)⟩)).map
              CPoint.timestamp) :=
          List.Sublist.map CPoint.timestamp (List.filter_sublist _)
        apply hsub.nodup
        have h1 : ((keysOf (pairKey env tr now) (serverPairs A)).map
            (fun k => mkCPoint ⟨k, srvAssocFor
              (groupFor (pairKey env tr now) (serverPairs A) k)⟩)).map
            CPoint.timestamp =
            (keysOf (pairKey env tr now) (serverPairs A)).map (fun k => k) := by
          rw [List.map_map]
          rfl
        rw [h1, List.map_id']
        exact nodup_firstDedup _
      have hsorted := jsSort_pairwise_le CPoint.timestamp cPointLe
        (fun a b => rfl) Q hvalQ
      have hvalS : ∀ a ∈ jsSort cPointLe Q, a.timestamp.isSome = true :=
        fun a ha => hvalQ a ((jsSort_perm _ _).mem_iff.mp ha)
      have hndS : ((jsSort cPointLe Q).map CPoint.timestamp).Nodup :=
        ((jsSort_perm cPointLe Q).map CPoint.timestamp).symm.nodup hndQ
      have hstrict := pairwise_strict CPoint.timestamp hvalS hndS hsorted
      exact List.Pairwise.sublist (List.drop_sublist _ _) hstrict

/-! ### Claim C2 -/

/-- The valid samples of server i landing in bucket k, read directly off
the input: the spec-side reference for the combiner sum law. -/
def serverBucketSamples (env : TzEnv) (tr : String) (now : ℤ)
    (allServerData : List (List RawPoint)) (i : ℕ) (k : JDate) :
    List RawPoint :=
  (allServerData.getD i []).filter
    (fun p => decide (sampleKeyS env tr now p = some k))

theorem pairsFrom_fst_ge (L : List (List RawPoint)) (j : ℕ) :
    ∀ x ∈ (List.enumFrom j L).flatMap (fun e => e.2.map (fun p => (e.1, p))),
      j ≤ x.1 := by
  intro x hx
  obtain ⟨e, he, hx2⟩ := List.mem_flatMap.mp hx
  obtain ⟨p, hp, rfl⟩ := List.mem_map.mp hx2
  obtain ⟨i2, a⟩ := e
  exact (List.mem_enumFrom he).1

theorem pairsFrom_fst_lt (L : List (List RawPoint)) (j : ℕ) :
    ∀ x ∈ (List.enumFrom j L).flatMap (fun e => e.2.map (fun p => (e.1, p))),
      x.1 < j + L.length := by
  intro x hx
  obtain ⟨e, he, hx2⟩ := List.mem_flatMap.mp hx
  obtain ⟨p, hp, rfl⟩ := List.mem_map.mp hx2
  obtain ⟨i2, a⟩ := e
  exact (List.mem_enumFrom he).2.1

theorem pairsFrom_filter_fst (L : List (List RawPoint)) :
    ∀ j i : ℕ, j ≤ i →
    ((List.enumFrom j L).flatMap (fun e => e.2.map (fun p => (e.1, p)))).filter
        (fun x => decide (x.1 = i)) =
      (L.getD (i - j) []).map (fun p => (i, p)) := by
  induction L with
  | nil =>
    intro j i hj
    simp
  | cons sd rest ih =>
    intro j i hj
    rw [List.enumFrom_cons, List.flatMap_cons, List.filter_append]
    by_cases hji : j = i
    · subst hji
      have hfirst : (sd.map (fun p => (j, p))).filter
          (fun x => decide (x.1 = j)) = sd.map (fun p => (j, p)) := by
        rw [List.filter_map]
        have hpred : ((fun x : ℕ × RawPoint => decide (x.1 = j)) ∘
            (fun p => (j, p))) = fun _ => true := by
          funext p
          simp [Function.comp]
        rw [hpred, List.filter_true]
      have hrest : ((List.enumFrom (j + 1) rest).flatMap
          (fun e => e.2.map (fun p => (e.1, p)))).filter
            (fun x => decide (x.1 = j)) = [] := by
        rw [List.filter_eq_nil_iff]
        intro x hx
        have := pairsFrom_fst_ge rest (j + 1) x hx
        simp only [decide_eq_true_eq]
        omega
      rw [hfirst, hrest, List.append_nil]
      simp
    · have hlt : j < i := lt_of_le_of_ne hj hji
      have hfirst : (sd.map (fun p => (j, p))).filter
          (fun x => decide (x.1 = i)) = [] := by
        rw [List.filter_map]
        have : (fun x : ℕ × RawPoint => decide (x.1 = i)) ∘
            (fun p => (j, p)) = fun _ => false := by
          funext p
          simp [Function.comp, hji]
        rw [this]
        simp
      rw [hfirst, List.nil_append, ih (j + 1) i hlt]
      have hidx : i - j = (i - (j + 1)) + 1 := by omega
      rw [hidx, List.getD_cons_succ]

theorem group_filter_fst (env : TzEnv) (tr : String) (now : ℤ)
    (A : List (List RawPoint)) (k : JDate) (i : ℕ) :
    (groupFor (pairKey env tr now) (serverPairs A) k).filter
        (fun x => decide (x.1 = i)) =
      (serverBucketSamples env tr now A i k).map (fun p => (i, p)) := by
  have hcomm : (groupFor (pairKey env tr now) (serverPairs A) k).filter
      (fun x => decide (x.1 = i)) =
    ((serverPairs A).filter (fun x => decide (x.1 = i))).filter
      (fun x => decide (pairKey env tr now x = some k)) := by
    rw [groupFor, List.filter_filter, List.filter_filter]
    apply List.filter_congr
    intro x _
    exact Bool.and_comm _ _
  rw [hcomm]
  have hfst : (serverPairs A).filter (fun x => decide (x.1 = i)) =
      (A.getD i []).map (fun p => (i, p)) := by
    rw [serverPairs, show A.enum = List.enumFrom 0 A from rfl]
    have := pairsFrom_filter_fst A 0 i (Nat.zero_le i)
    simpa using this
  rw [hfst, List.filter_map, serverBucketSamples]
  rfl

theorem mem_map_fst_iff_filter_ne {α : Type} (l : List (ℕ × α)) (i : ℕ) :
    i ∈ l.map (fun x => x.1) ↔
      l.filter (fun x => decide (x.1 = i)) ≠ [] := by
  rw [Ne, List.filter_eq_nil_iff]
  constructor
  · intro hm hall
    obtain ⟨x, hx, hxi⟩ := List.mem_map.mp hm
    exact (hall x hx) (by simp [hxi])
  · intro h
    by_contra hc
    apply h
    intro x hx
    simp only [decide_eq_true_eq]
    intro hxi
    exact hc (List.mem_map.mpr ⟨x, hx, hxi⟩)

/-- Claim C2: for every bucket emitted by aggregateCombinedServerData,
total_rx is the sum, over exactly the servers with at least one valid
sample in that bucket, of each server's arithmetic mean of its rx_rate
values in the bucket (likewise total_tx for tx_rate), and server_count is
the number of such contributing servers — not a mean or sum over raw
samples pooled across servers. -/
theorem C2_theorem (env : TzEnv) (tr : String) (now : ℤ)
    (allServerData : List (List RawPoint)) (out : List CPoint) (p : CPoint)
    (hok : aggregateCombinedServerData env tr now allServerData =
      Except.ok out)
    (hp : p ∈ out) :
    p.total_rx = (((List.range allServerData.length).filter
        (fun i => decide (serverBucketSamples env tr now allServerData i
          p.timestamp ≠ []))).map
        (fun i => qMean ((serverBucketSamples env tr now allServerData i
          p.timestamp).map (fun q => numberOr0 q.rx_rate)))).sum ∧
    p.total_tx = (((List.range allServerData.length).filter
        (fun i => decide (serverBucketSamples env tr now allServerData i
          p.timestamp ≠ []))).map
        (fun i => qMean ((serverBucketSamples env tr now allServerData i
          p.timestamp).map (fun q => numberOr0 q.tx_rate)))).sum ∧
    p.server_count = ((List.range allServerData.length).filter
        (fun i => decide (serverBucketSamples env tr now allServerData i
          p.timestamp ≠ []))).length := by
  rw [aggregateCombinedServerData_eq] at hok
  by_cases he : allServerData.isEmpty = true
  · rw [if_pos he] at hok
    injection hok with hh
    subst hh
    simp at hp
  · rw [if_neg he] at hok
    by_cases hvv : bucketsValidC env tr now allServerData = true
    swap
    · rw [if_neg hvv] at hok
      cases hok
    rw [if_pos hvv] at hok
    injection hok with hh
    subst hh
    rw [limitPoints_eq_drop, sortedCombined_eq] at hp
    have hp2 := (List.drop_sublist _ _).subset hp
    have hp3 := (jsSort_perm _ _).mem_iff.mp hp2
    obtain ⟨hp4, hcount⟩ := List.mem_filter.mp hp3
    obtain ⟨k, hk, rfl⟩ := List.mem_map.mp hp4
    rw [mkCPoint_srvAssocFor]
    have hts : (⟨k,
        ((firstDedup ((groupFor (pairKey env tr now) (serverPairs allServerData)
          k).map (fun x => x.1))).map (fun i =>
          qMean (((groupFor (pairKey env tr now) (serverPairs allServerData)
            k).filter (fun x => decide (x.1 = i))).map
            (fun x => numberOr0 x.2.rx_rate)))).sum,
        ((firstDedup ((groupFor (pairKey env tr now) (serverPairs allServerData)
          k).map (fun x => x.1))).map (fun i =>
          qMean (((groupFor (pairKey env tr now) (serverPairs allServerData)
            k).filter (fun x => decide (x.1 = i))).map
            (fun x => numberOr0 x.2.tx_rate)))).sum,
        (firstDedup ((groupFor (pairKey env tr now) (serverPairs allServerData)
          k).map (fun x => x.1))).length⟩ : CPoint).timestamp = k := rfl
    rw [hts]
    set g := groupFor (pairKey env tr now) (serverPairs allServerData) k
      with hgdef
    set D := firstDedup (g.map (fun x => x.1)) with hDdef
    set R := (List.range allServerData.length).filter
      (fun i => decide (serverBucketSamples env tr now allServerData i k ≠ []))
      with hRdef
    have hmemD : ∀ i, i ∈ D ↔
        serverBucketSamples env tr now allServerData i k ≠ [] ∧
          i < allServerData.length := by
      intro i
      rw [hDdef, mem_firstDedup, mem_map_fst_iff_filter_ne,
        group_filter_fst env tr now allServerData k i]
      constructor
      · intro h
        have hne : serverBucketSamples env tr now allServerData i k ≠ [] := by
          intro hnil
          exact h (by rw [hnil]; rfl)
        refine ⟨hne, ?_⟩
        obtain ⟨q, hq⟩ := List.exists_mem_of_ne_nil _ hne
        have hmem : (i, q) ∈ g := by
          have : (i, q) ∈ (serverBucketSamples env tr now allServerData i
              k).map (fun p => (i, p)) := List.mem_map.mpr ⟨q, hq, rfl⟩
          rw [← group_filter_fst env tr now allServerData k i] at this
          exact (List.mem_filter.mp this).1
        have := pairsFrom_fst_lt allServerData 0 (i, q)
          (by rw [← show allServerData.enum = List.enumFrom 0 allServerData
            from rfl, ← serverPairs]
              exact (List.mem_filter.mp (hgdef ▸ hmem)).1)
        simpa using this
      · rintro ⟨hne, _⟩
        intro hnil
        apply hne
        have := congrArg List.length hnil
        rw [List.length_map] at this
        exact List.eq_nil_of_length_eq_zero this
    have hmemR : ∀ i, i ∈ R ↔
        serverBucketSamples env tr now allServerData i k ≠ [] ∧
          i < allServerData.length := by
      intro i
      rw [hRdef, List.mem_filter, List.mem_range]
      simp [and_comm]
    have hperm : D.Perm R := by
      apply (List.perm_ext_iff_of_nodup ?_ ?_).mpr
      · intro i
        rw [hmemD, hmemR]
      · exact hDdef ▸ nodup_firstDedup _
      · exact hRdef ▸ (List.nodup_range _).filter _
    have hrxval : ∀ i, qMean ((g.filter (fun x => decide (x.1 = i))).map
        (fun x => numberOr0 x.2.rx_rate)) =
        qMean ((serverBucketSamples env tr now allServerData i k).map
          (fun q => numberOr0 q.rx_rate)) := by
      intro i
      rw [hgdef, group_filter_fst env tr now allServerData k i, List.map_map]
      rfl
    have htxval : ∀ i, qMean ((g.filter (fun x => decide (x.1 = i))).map
        (fun x => numberOr0 x.2.tx_rate)) =
        qMean ((serverBucketSamples env tr now allServerData i k).map
          (fun q => numberOr0 q.tx_rate)) := by
      intro i
      rw [hgdef, group_filter_fst env tr now allServerData k i, List.map_map]
      rfl
    refine ⟨?_, ?_, ?_⟩
    · show (D.map _).sum = (R.map _).sum
      rw [List.map_congr_left (fun i _ => hrxval i)]
      exact (hperm.map _).sum_eq
    · show (D.map _).sum = (R.map _).sum
      rw [List.map_congr_left (fun i _ => htxval i)]
      exact (hperm.map _).sum_eq
    · show D.length = R.length
      exact hperm.length_eq

/-! ### Claim C9 -/

theorem jsSort_strict_points {α : Type} (kf : α → JDate) (le : α → α → Bool)
    (hle : ∀ a b, le a b = jdLeB (kf a) (kf b)) (P : List α)
    (hval : ∀ a ∈ P, (kf a).isSome = true) (hnd : (P.map kf).Nodup) :
    (jsSort le P).Pairwise (fun a b => jdLt (kf a) (kf b) = true) := by
  have hsorted := jsSort_pairwise_le kf le hle P hval
  have hvalS : ∀ a ∈ jsSort le P, (kf a).isSome = true :=
    fun a ha => hval a ((jsSort_perm _ _).mem_iff.mp ha)
  have hndS : ((jsSort le P).map kf).Nodup :=
    ((jsSort_perm le P).map kf).symm.nodup hnd
  exact pairwise_strict kf hvalS hndS hsorted

theorem jsSort_eq_of_perm_strict {α : Type} (kf : α → JDate) (le : α → α → Bool)
    (hle : ∀ a b, le a b = jdLeB (kf a) (kf b)) (P Q : List α) (hPQ : P.Perm Q)
    (hvalP : ∀ a ∈ P, (kf a).isSome = true) (hndP : (P.map kf).Nodup) :
    jsSort le P = jsSort le Q := by
  have hvalQ : ∀ a ∈ Q, (kf a).isSome = true :=
    fun a ha => hvalP a (hPQ.mem_iff.mpr ha)
  have hndQ : (Q.map kf).Nodup := (hPQ.map kf).nodup hndP
  have hs1 := jsSort_strict_points kf le hle P hvalP hndP
  have hs2 := jsSort_strict_points kf le hle Q hvalQ hndQ
  have hperm2 : (jsSort le P).Perm (jsSort le Q) :=
    (jsSort_perm le P).trans (hPQ.trans (jsSort_perm le Q).symm)
  haveI : IsAntisymm α (fun a b => jdLt (kf a) (kf b) = true) := ⟨by
    intro a b h1 h2
    exfalso
    cases hta : kf a with
    | none =>
      rw [hta] at h1
      cases kf b <;> simp [jdLt] at h1
    | some x =>
      cases htb : kf b with
      | none =>
        rw [hta, htb] at h1
        simp [jdLt] at h1
      | some y =>
        rw [hta, htb] at h1 h2
        simp only [jdLt, decide_eq_true_eq] at h1 h2
        omega⟩
  exact List.eq_of_perm_of_sorted hperm2 hs1 hs2

theorem enumFrom_pairs_perm {A B : List (List RawPoint)}
    (h : List.Forall₂ List.Perm A B) :
    ∀ j : ℕ,
      ((List.enumFrom j A).flatMap (fun e => e.2.map (fun p => (e.1, p)))).Perm
        ((List.enumFrom j B).flatMap (fun e => e.2.map (fun p => (e.1, p)))) := by
  induction h with
  | nil =>
    intro j
    exact List.Perm.refl _
  | cons hsd htail ih =>
    intro j
    rw [List.enumFrom_cons, List.enumFrom_cons, List.flatMap_cons,
      List.flatMap_cons]
    exact List.Perm.append (hsd.map _) (ih (j + 1))

theorem serverPairs_perm {A B : List (List RawPoint)}
    (h : List.Forall₂ List.Perm A B) :
    (serverPairs A).Perm (serverPairs B) := by
  rw [serverPairs, serverPairs, show A.enum = List.enumFrom 0 A from rfl,
    show B.enum = List.enumFrom 0 B from rfl]
  exact enumFrom_pairs_perm h 0

theorem mkCPoint_perm_eq (g2 g : List (ℕ × RawPoint)) (hg : g2.Perm g)
    (k : JDate) :
    mkCPoint ⟨k, srvAssocFor g2⟩ = mkCPoint ⟨k, srvAssocFor g⟩ := by
  rw [mkCPoint_srvAssocFor, mkCPoint_srvAssocFor]
  have hD : (firstDedup (g2.map (fun x => x.1))).Perm
      (firstDedup (g.map (fun x => x.1))) := by
    apply (List.perm_ext_iff_of_nodup (nodup_firstDedup _)
      (nodup_firstDedup _)).mpr
    intro i
    rw [mem_firstDedup, mem_firstDedup]
    exact (hg.map _).mem_iff
  have hrx : ∀ i, qMean ((g2.filter (fun x => decide (x.1 = i))).map
      (fun x => numberOr0 x.2.rx_rate)) =
      qMean ((g.filter (fun x => decide (x.1 = i))).map
        (fun x => numberOr0 x.2.rx_rate)) := by
    intro i
    have hf := hg.filter (fun x => decide (x.1 = i))
    rw [qMean, qMean, (hf.map (fun x => numberOr0 x.2.rx_rate)).sum_eq,
      List.length_map, List.length_map, hf.length_eq]
  have htx : ∀ i, qMean ((g2.filter (fun x => decide (x.1 = i))).map
      (fun x => numberOr0 x.2.tx_rate)) =
      qMean ((g.filter (fun x => decide (x.1 = i))).map
        (fun x => numberOr0 x.2.tx_rate)) := by
    intro i
    have hf := hg.filter (fun x => decide (x.1 = i))
    rw [qMean, qMean, (hf.map (fun x => numberOr0 x.2.tx_rate)).sum_eq,
      List.length_map, List.length_map, hf.length_eq]
  have h1 : (firstDedup (g2.map (fun x => x.1))).map (fun i =>
      qMean ((g2.filter (fun x => decide (x.1 = i))).map
        (fun x => numberOr0 x.2.rx_rate))) =
      (firstDedup (g2.map (fun x => x.1))).map (fun i =>
        qMean ((g.filter (fun x => decide (x.1 = i))).map
          (fun x => numberOr0 x.2.rx_rate))) :=
    List.map_congr_left (fun i _ => hrx i)
  have h2 : (firstDedup (g2.map (fun x => x.1))).map (fun i =>
      qMean ((g2.filter (fun x => decide (x.1 = i))).map
        (fun x => numberOr0 x.2.tx_rate))) =
      (firstDedup (g2.map (fun x => x.1))).map (fun i =>
        qMean ((g.filter (fun x => decide (x.1 = i))).map
          (fun x => numberOr0 x.2.tx_rate))) :=
    List.map_congr_left (fun i _ => htx i)
  rw [h1, h2,
    (hD.map (fun i => qMean ((g.filter (fun x => decide (x.1 = i))).map
      (fun x => numberOr0 x.2.rx_rate)))).sum_eq,
    (hD.map (fun i => qMean ((g.filter (fun x => decide (x.1 = i))).map
      (fun x => numberOr0 x.2.tx_rate)))).sum_eq,
    hD.length_eq]

/-- With every bucket key a valid date, the sorted single series is
unchanged under permutation of the input samples. -/
theorem sortedAggregated_perm (env : TzEnv) (tr : String) (now : ℤ)
    (l l2 : List RawPoint) (hperm : l.Perm l2)
    (hval : ∀ k ∈ keysOf (sampleKeyS env tr now) l, k.isSome = true) :
    sortedAggregated env tr now l2 = sortedAggregated env tr now l := by
  rw [sortedAggregated_eq, sortedAggregated_eq]
  have hFeq : ∀ k, mkSPoint (sBucketFor env tr now l2 k) =
      mkSPoint (sBucketFor env tr now l k) := by
    intro k
    have hg : (groupFor (sampleKeyS env tr now) l2 k).Perm
        (groupFor (sampleKeyS env tr now) l k) := hperm.symm.filter _
    have hlen2 := hg.length_eq
    have hsumrx := (hg.map (fun p => numberOr0 p.rx_rate)).sum_eq
    have hsumtx := (hg.map (fun p => numberOr0 p.tx_rate)).sum_eq
    simp only [mkSPoint, sBucketFor, List.length_map]
    rw [hlen2, hsumrx, hsumtx]
  rw [List.map_congr_left (fun k _ => hFeq k)]
  have hkeys : (keysOf (sampleKeyS env tr now) l2).Perm
      (keysOf (sampleKeyS env tr now) l) := by
    apply (List.perm_ext_iff_of_nodup (nodup_firstDedup _)
      (nodup_firstDedup _)).mpr
    intro k
    simp only [keysOf, mem_firstDedup]
    exact Iff.symm (hperm.filterMap _).mem_iff
  apply jsSort_eq_of_perm_strict SPoint.timestamp sPointLe
    (fun a b => rfl) _ _ (hkeys.map _) ?_ ?_
  · intro a ha
    obtain ⟨k, hk, rfl⟩ := List.mem_map.mp ha
    show k.isSome = true
    exact hval k (hkeys.mem_iff.mp hk)
  · have h1 : ((keysOf (sampleKeyS env tr now) l2).map
        (fun k => mkSPoint (sBucketFor env tr now l k))).map
        SPoint.timestamp =
        (keysOf (sampleKeyS env tr now) l2).map (fun k => k) := by
      rw [List.map_map]
      rfl
    rw [h1, List.map_id']
    exact nodup_firstDedup _

/-- With every bucket key a valid date, the sorted combined series is
unchanged under per-server permutation of the samples. -/
theorem sortedCombined_perm (env : TzEnv) (tr : String) (now : ℤ)
    (A B : List (List RawPoint)) (hAB : List.Forall₂ List.Perm A B)
    (hval : ∀ k ∈ keysOf (pairKey env tr now) (serverPairs A),
      k.isSome = true) :
    sortedCombined env tr now B = sortedCombined env tr now A := by
  rw [sortedCombined_eq, sortedCombined_eq]
  have hpairs : (serverPairs B).Perm (serverPairs A) :=
    (serverPairs_perm hAB).symm
  have hFeq : ∀ k, mkCPoint ⟨k, srvAssocFor (groupFor (pairKey env tr now)
      (serverPairs B) k)⟩ = mkCPoint ⟨k, srvAssocFor (groupFor
      (pairKey env tr now) (serverPairs A) k)⟩ :=
    fun k => mkCPoint_perm_eq _ _ (hpairs.filter _) k
  rw [List.map_congr_left (fun k _ => hFeq k)]
  have hkeys : (keysOf (pairKey env tr now) (serverPairs B)).Perm
      (keysOf (pairKey env tr now) (serverPairs A)) := by
    apply (List.perm_ext_iff_of_nodup (nodup_firstDedup _)
      (nodup_firstDedup _)).mpr
    intro k
    simp only [keysOf, mem_firstDedup]
    exact (hpairs.filterMap _).mem_iff
  apply jsSort_eq_of_perm_strict CPoint.timestamp cPointLe
    (fun a b => rfl) _ _ ((hkeys.map _).filter _) ?_ ?_
  · intro a ha
    obtain ⟨k, hk, rfl⟩ := List.mem_map.mp (List.mem_filter.mp ha).1
    show k.isSome = true
    exact hval k (hkeys.mem_iff.mp hk)
  · have hsub : ((((keysOf (pairKey env tr now) (serverPairs B)).map
        (fun k => mkCPoint ⟨k, srvAssocFor (groupFor (pairKey env tr now)
          (serverPairs A) k)⟩)).filter
        (fun p => decide (0 < p.server_count))).map
        CPoint.timestamp).Sublist
        (((keysOf (pairKey env tr now) (serverPairs B)).map
          (fun k => mkCPoint ⟨k, srvAssocFor (groupFor (pairKey env tr now)
            (serverPairs A) k)⟩)).map CPoint.timestamp) :=
      List.Sublist.map CPoint.timestamp (List.filter_sublist _)
    apply hsub.nodup
    have h1 : ((keysOf (pairKey env tr now) (serverPairs B)).map
        (fun k => mkCPoint ⟨k, srvAssocFor (groupFor (pairKey env tr now)
          (serverPairs A) k)⟩)).map CPoint.timestamp =
        (keysOf (pairKey env tr now) (serverPairs B)).map (fun k => k) := by
      rw [List.map_map]
      rfl
    rw [h1, List.map_id']
    exact nodup_firstDedup _

/-- Claim C9: permuting the input sample array of aggregateDataByTime —
and permuting the samples within each server's array of
aggregateCombinedServerData — yields exactly the same result, for every
input and window label (in the exact-rational model of JavaScript number
arithmetic).  Whether an Invalid-Date bucket exists, and hence whether
building the output throws, does not depend on sample order; on the
non-throwing path the bucket contents and therefore the sorted series
are order-independent as well. -/
theorem C9_theorem (env : TzEnv) (tr : String) (now : ℤ) :
    (∀ l l2 : List RawPoint, l.Perm l2 →
      aggregateDataByTime env tr now l2 = aggregateDataByTime env tr now l) ∧
    (∀ A B : List (List RawPoint), List.Forall₂ List.Perm A B →
      aggregateCombinedServerData env tr now B =
        aggregateCombinedServerData env tr now A) := by
  constructor
  · intro l l2 hperm
    rw [aggregateDataByTime_eq, aggregateDataByTime_eq]
    have hie : l2.isEmpty = l.isEmpty := by
      have hlen := hperm.length_eq
      cases l <;> cases l2 <;> simp_all
    have hkm : ∀ k, k ∈ keysOf (sampleKeyS env tr now) l2 ↔
        k ∈ keysOf (sampleKeyS env tr now) l := by
      intro k
      simp only [keysOf, mem_firstDedup]
      exact Iff.symm (hperm.filterMap _).mem_iff
    have hiff : bucketsValidS env tr now l2 = true ↔
        bucketsValidS env tr now l = true := by
      rw [bucketsValidS_iff, bucketsValidS_iff]
      constructor
      · intro h k hk
        exact h k ((hkm k).mpr hk)
      · intro h k hk
        exact h k ((hkm k).mp hk)
    have hbv : bucketsValidS env tr now l2 = bucketsValidS env tr now l := by
      cases hb : bucketsValidS env tr now l with
      | true => exact hiff.mpr hb
      | false =>
        cases hb2 : bucketsValidS env tr now l2 with
        | false => rfl
        | true => exact absurd (hiff.mp hb2) (by simp [hb])
    rw [hie, hbv]
    by_cases he : l.isEmpty = true
    · rw [if_pos he, if_pos he]
    · rw [if_neg he, if_neg he]
      by_cases hv : bucketsValidS env tr now l = true
      · rw [if_pos hv, if_pos hv,
          sortedAggregated_perm env tr now l l2 hperm
            ((bucketsValidS_iff env tr now l).mp hv)]
      · rw [if_neg hv, if_neg hv]
  · intro A B hAB
    rw [aggregateCombinedServerData_eq, aggregateCombinedServerData_eq]
    have hie : B.isEmpty = A.isEmpty := by
      have hlen := hAB.length_eq
      cases A <;> cases B <;> simp_all
    have hpairs : (serverPairs B).Perm (serverPairs A) :=
      (serverPairs_perm hAB).symm
    have hkm : ∀ k, k ∈ keysOf (pairKey env tr now) (serverPairs B) ↔
        k ∈ keysOf (pairKey env tr now) (serverPairs A) := by
      intro k
      simp only [keysOf, mem_firstDedup]
      exact (hpairs.filterMap _).mem_iff
    have hiff : bucketsValidC env tr now B = true ↔
        bucketsValidC env tr now A = true := by
      rw [bucketsValidC_iff, bucketsValidC_iff]
      constructor
      · intro h k hk
        exact h k ((hkm k).mpr hk)
      · intro h k hk
        exact h k ((hkm k).mp hk)
    have hbv : bucketsValidC env tr now B = bucketsValidC env tr now A := by
      cases hb : bucketsValidC env tr now A with
      | true => exact hiff.mpr hb
      | false =>
        cases hb2 : bucketsValidC env tr now B with
        | false => rfl
        | true => exact absurd (hiff.mp hb2) (by simp [hb])
    rw [hie, hbv]
    by_cases he : A.isEmpty = true
    · rw [if_pos he, if_pos he]
    · rw [if_neg he, if_neg he]
      by_cases hv : bucketsValidC env tr now A = true
      · rw [if_pos hv, if_pos hv,
          sortedCombined_perm env tr now A B hAB
            ((bucketsValidC_iff env tr now A).mp hv)]
      · rw [if_neg hv, if_neg hv]

/-! ### Concrete evaluations: counterexamples and witnesses

The rational arithmetic of Batteries is irreducible by default, which
blocks kernel evaluation of the bucket means; within this section it is
made semireducible so that decide can run the aggregators on concrete
inputs. -/

section ConcreteEvaluation

set_option allowUnsafeReducibility true

attribute [local semireducible] Rat.mul Rat.inv Rat.add Rat.neg Rat.sub Rat.div

/-- Claim C3 counterexample: for the truthy, unparseable raw timestamp
string x (both external parsers yield an Invalid Date on it, as date-fns
does for a garbage string), normalizeTimestamp returns an Invalid Date
(some none), not null (none) — refuting the claim that every unparseable
raw value yields null. -/
theorem C3_counterexample :
    cxEnv.parseIso "x" = none ∧ cxEnv.dateCtor "x" = none ∧
    (TVal.str "x").truthy = true ∧
    normalizeTimestamp cxEnv (TVal.str "x") = some none := by
  refine ⟨rfl, rfl, by decide, by decide⟩

/-- Claim C1 counterexample: a sample whose rx_rate is the non-numeric
string abc (Number coercion fails, parseNum = none) is truthy, so the
validity guard does not skip it: it is coerced to 0 by Number(x) || 0 and
drags the bucket mean from 10 down to 5 — refuting the claim that every
sample with a non-numeric rate contributes no value. -/
theorem C1_counterexample :
    parseNum "abc" = none ∧
    aggregateDataByTime cxEnv ("1h") 360000000 [cxValid, cxStrRate] ≠
      aggregateDataByTime cxEnv ("1h") 360000000 [cxValid] ∧
    aggregateDataByTime cxEnv ("1h") 360000000 [cxValid, cxStrRate] =
      Except.ok [⟨some 360000000, 5, 7, 2⟩] := by
  refine ⟨by decide, by decide, by decide⟩

/-- Claim C1 witness: removing a null-rx sample from a two-sample batch
leaves the output unchanged. -/
theorem C1_witness :
    aggregateDataByTime cxEnv ("1h") 360000000 ([cxValid] ++ cxNullRate :: []) =
      aggregateDataByTime cxEnv ("1h") 360000000 ([cxValid] ++ []) :=
  C1_theorem cxEnv ("1h") 360000000 cxNullRate (Or.inl (by decide)) [cxValid] []

/-- Claim C8 witness: the fallback cutoff at the unknown label 2h, and
the exclusion of a sample two hours older than a 1h window. -/
theorem C8_witness :
    getTimeRangeCutoff ("2h") 0 = 0 - 3600000 ∧
    aggregateDataByTime cxEnv ("1h") 360000000 ([cxValid] ++ cxOld :: []) =
      aggregateDataByTime cxEnv ("1h") 360000000 ([cxValid] ++ []) :=
  ⟨C8_theorem.2.1 ("2h") 0 (by decide),
   C8_theorem.2.2 cxEnv ("1h") 360000000 300000000 cxOld [cxValid] []
     (by decide) (by decide)⟩

/-- Claim C6 witness: the target count at the 1h label, and the
drop-form equality and 60-point bound realized on a returned one-point
series. -/
theorem C6_witness :
    getTargetDataPoints ("1h") = 60 ∧
    ([(⟨some 360000000, 10, 10, 1⟩ : SPoint)] =
      if ([cxValid] : List RawPoint).isEmpty then [] else
        (sortedAggregated cxEnv ("1h") 360000000 [cxValid]).drop
          ((sortedAggregated cxEnv ("1h") 360000000 [cxValid]).length - 60)) ∧
    ([(⟨some 360000000, 10, 10, 1⟩ : SPoint)]).length ≤ 60 := by
  have hok : aggregateDataByTime cxEnv ("1h") 360000000 [cxValid] =
      Except.ok [⟨some 360000000, 10, 10, 1⟩] := by
    decide
  have h := (C6_theorem cxEnv ("1h") 360000000 [cxValid] [[cxA]]).2.1
    [⟨some 360000000, 10, 10, 1⟩] hok
  exact ⟨(C6_theorem cxEnv ("1h") 360000000 [cxValid] [[cxA]]).1, h.1, h.2⟩

/-- A valid realtime sample in the partial interval after the last
pre-created bucket for now = 915000 (key 900000, grid keys 0..870000). -/
def cxLate : RawPoint := ⟨TVal.date (some 905000), JVal.num 3, JVal.num 5⟩

/-- Claim C7 counterexample: for the 3d label (nominal bucket width 1.2 h
= 4320000 ms anchored at the day boundary) the instants 01:30 and 02:00
of the epoch day lie in the same nominal width-window (index 1) yet
receive different bucket keys (00:00 and 01:00): the returned function is
not a fixed-width floor, and instants in one width-window do not all map
to one key. -/
theorem C7_counterexample :
    (5400000 : ℤ) / 4320000 = (7200000 : ℤ) / 4320000 ∧
    getTimeBucketFunction ("3d") (some 5400000) ≠
      getTimeBucketFunction ("3d") (some 7200000) := by
  refine ⟨by decide, by decide⟩

/-- Claim C7 witness: shared keys for instants in the same 24-minute
sub-hour window (1d), and in the same calendar hour (3d and 1w). -/
theorem C7_witness :
    getTimeBucketFunction ("1d") (some 1500000) =
      getTimeBucketFunction ("1d") (some 1800000) ∧
    getTimeBucketFunction ("3d") (some 3600000) =
      getTimeBucketFunction ("3d") (some 7199999) ∧
    getTimeBucketFunction ("1w") (some 0) =
      getTimeBucketFunction ("1w") (some 3599999) :=
  ⟨C7_theorem.2.2.2.1 1500000 1800000 (by decide) (by decide),
   C7_theorem.2.2.2.2.1 3600000 7199999 (by decide),
   C7_theorem.2.2.2.2.2 0 3599999 (by decide)⟩

/-- Claim C4 counterexample: an empty input array short-circuits to []
— the realtime aggregator does not return 30 empty buckets for a server
with no samples at all, refuting the claim for that input. -/
theorem C4_counterexample :
    aggregateRealtimeData cxEnv 915000 [] = [] ∧
    (aggregateRealtimeData cxEnv 915000 []).length ≠ 30 := by
  refine ⟨rfl, by decide⟩

/-- Claim C4 witness: a non-empty input with one in-window sample yields
exactly 30 points. -/
theorem C4_witness :
    (aggregateRealtimeData cxEnv 915000 [cxRT]).length = 30 :=
  (C4_theorem cxEnv 915000 [cxRT] (by decide)).1

/-- Claim C10 witness: a sample at 905000 (normalized time at or after
the window start 15000, bucket key 900000 outside the 30 pre-created
keys 0..870000) is discarded: removing it leaves the output unchanged. -/
theorem C10_witness :
    aggregateRealtimeData cxEnv 915000 ([cxRT] ++ cxLate :: []) =
      aggregateRealtimeData cxEnv 915000 ([cxRT] ++ []) :=
  C10_theorem cxEnv 915000 cxLate 905000 (by decide) (by decide) (by decide)
    [cxRT] [] (by decide)

/-- Claim C5 witness: a returned two-point series is strictly ascending
by timestamp, and likewise the combined aggregator's series; a batch with
a truthy-but-unparseable timestamp returns no series at all (building its
Invalid-Date point throws). -/
theorem C5_witness :
    aggregateDataByTime cxEnv ("1h") 360000000 [cxValid, cxEarly] =
      Except.ok [⟨some 359940000, 2, 6, 1⟩, ⟨some 360000000, 10, 10, 1⟩] ∧
    ([(⟨some 359940000, 2, 6, 1⟩ : SPoint),
      ⟨some 360000000, 10, 10, 1⟩]).Pairwise
      (fun a b => jdLt a.timestamp b.timestamp = true) ∧
    aggregateCombinedServerData cxEnv ("1h") 360000000 [[cxA], [cxB]] =
      Except.ok [⟨some 360000000, 12, 3, 2⟩] ∧
    ([(⟨some 360000000, 12, 3, 2⟩ : CPoint)]).Pairwise
      (fun a b => jdLt a.timestamp b.timestamp = true) ∧
    aggregateDataByTime cxEnv ("1h") 360000000 [cxGarbage, cxValid] =
      Except.error () := by
  have hok1 : aggregateDataByTime cxEnv ("1h") 360000000 [cxValid, cxEarly] =
      Except.ok [⟨some 359940000, 2, 6, 1⟩, ⟨some 360000000, 10, 10, 1⟩] := by
    decide
  have hok2 : aggregateCombinedServerData cxEnv ("1h") 360000000
      [[cxA], [cxB]] = Except.ok [⟨some 360000000, 12, 3, 2⟩] := by
    decide
  exact ⟨hok1,
    (C5_theorem cxEnv ("1h") 360000000).1 [cxValid, cxEarly] _ hok1,
    hok2,
    (C5_theorem cxEnv ("1h") 360000000).2 [[cxA], [cxB]] _ hok2,
    by decide⟩

/-- Claim C2 witness: two servers with one sample each (rx 5 and 7, tx 1
and 2) landing in one shared bucket produce the combined point with
total_rx 12 = 5 + 7, total_tx 3 = 1 + 2 and server_count 2, and the
theorem's sum-of-per-server-means law holds at that point. -/
theorem C2_witness :
    aggregateCombinedServerData cxEnv ("1h") 360000000 [[cxA], [cxB]] =
      Except.ok [⟨some 360000000, 12, 3, 2⟩] ∧
    (⟨some 360000000, 12, 3, 2⟩ : CPoint).total_rx =
      (((List.range ([[cxA], [cxB]] : List (List RawPoint)).length).filter
        (fun i => decide (serverBucketSamples cxEnv ("1h") 360000000
          [[cxA], [cxB]] i
          (⟨some 360000000, 12, 3, 2⟩ : CPoint).timestamp ≠ []))).map
        (fun i => qMean ((serverBucketSamples cxEnv ("1h") 360000000
          [[cxA], [cxB]] i
          (⟨some 360000000, 12, 3, 2⟩ : CPoint).timestamp).map
          (fun q => numberOr0 q.rx_rate)))).sum := by
  have hok : aggregateCombinedServerData cxEnv ("1h") 360000000
      [[cxA], [cxB]] = Except.ok [⟨some 360000000, 12, 3, 2⟩] := by
    decide
  have hp : (⟨some 360000000, 12, 3, 2⟩ : CPoint) ∈
      [(⟨some 360000000, 12, 3, 2⟩ : CPoint)] := by
    decide
  exact ⟨hok,
    (C2_theorem cxEnv ("1h") 360000000 [[cxA], [cxB]] _ _ hok hp).1⟩

/-- Claim C9 witness: reordering a two-sample batch and the per-server
sample arrays leaves both aggregators' results unchanged; the last
conjunct reorders a batch whose aggregation throws, and both orderings
yield the same error. -/
theorem C9_witness :
    aggregateDataByTime cxEnv ("1h") 360000000 [cxEarly, cxValid] =
      aggregateDataByTime cxEnv ("1h") 360000000 [cxValid, cxEarly] ∧
    aggregateCombinedServerData cxEnv ("1h") 360000000 [[cxB, cxA], [cxB]] =
      aggregateCombinedServerData cxEnv ("1h") 360000000 [[cxA, cxB], [cxB]] ∧
    aggregateDataByTime cxEnv ("1h") 360000000 [cxValid, cxGarbage] =
      aggregateDataByTime cxEnv ("1h") 360000000 [cxGarbage, cxValid] :=
  ⟨(C9_theorem cxEnv ("1h") 360000000).1 [cxValid, cxEarly] [cxEarly, cxValid]
     (by decide),
   (C9_theorem cxEnv ("1h") 360000000).2 [[cxA, cxB], [cxB]]
     [[cxB, cxA], [cxB]] (List.Forall₂.cons (by decide)
       (List.Forall₂.cons (by decide) List.Forall₂.nil)),
   (C9_theorem cxEnv ("1h") 360000000).1 [cxGarbage, cxValid]
     [cxValid, cxGarbage] (by decide)⟩

end ConcreteEvaluation

end VnstatAgg
